import Mathlib

/-!
# Verification of cuda-convnet's weight-gradient kernels and layer protocol

This file gives a shallow embedding of `src/src/cudaconv2/weight_acts.cu`
(the three `weight_acts_kernel2_*` CUDA kernel templates and the
`convWeightActs` dispatcher) and of the layer-graph propagation protocol
described by `src/include/layer.cuh`, and proves the spec's claims about
them.

Modelling conventions:
* device buffers are total functions `ℤ → ℚ`; rationals stand in for IEEE
  floats, so the claims are settled for the exact reduction structure;
* machine `int` arithmetic is modelled by `ℕ`/`ℤ` (all quantities the code
  computes are non-negative except `paddingStart` and pixel coordinates,
  which are `ℤ`);
* a CUDA kernel is embedded per cooperative block and thread: the contents
  of a shared-memory array after a load loop are written as a function of
  the loaded indices (each (row, column) slot is written by exactly one
  thread per iteration under the kernels' documented divisibility
  constraints `preloadCases ∣ B_X * B_Y`, so the post-barrier contents are
  well defined); shared slots that a guarded load leaves untouched keep
  their previous value, which is threaded through an explicit state whose
  initial contents (uninitialised shared memory) are a parameter.
-/

set_option maxHeartbeats 1000000

namespace CudaConv

/-- Device memory: a total function from integer byte-element offsets to
rational values. -/
abbrev Buf : Type := ℤ → ℚ

/-- Scalar arguments common to the three kernels of `weight_acts.cu`.
`modulesPerBlock` is the `moduleSum` value that `convWeightActs` passes to
the kernels. -/
structure Params where
  numImages : ℕ
  numFilters : ℕ
  numModulesX : ℕ
  imgSize : ℕ
  filterSize : ℕ
  paddingStart : ℤ
  moduleStride : ℕ
  imgStride : ℕ
  numImgColors : ℕ
  modulesPerBlock : ℕ
  numGroups : ℕ

/-- `filterPixels = filterSize * filterSize` as in every kernel. -/
def filterPixels (P : Params) : ℕ := P.filterSize * P.filterSize

/-- `imgPixels = imgSize * imgSize` as in every kernel. -/
def imgPixels (P : Params) : ℕ := P.imgSize * P.imgSize

/-- `numModules = numModulesX * numModulesX`. -/
def numModules (P : Params) : ℕ := P.numModulesX * P.numModulesX

/-- `numFilterColors = numImgColors / numGroups`. -/
def numFilterColors (P : Params) : ℕ := P.numImgColors / P.numGroups

/-- `numFiltersPerGroup = numFilters / numGroups`. -/
def numFiltersPerGroup (P : Params) : ℕ := P.numFilters / P.numGroups

/-- Number of iterations of `for (caseIdx = 0; caseIdx < numImages;
caseIdx += preloadCases)`. -/
def numTiles (P : Params) (preloadCases : ℕ) : ℕ :=
  (P.numImages + preloadCases - 1) / preloadCases

/-- `imgLoadModPosY = paddingStart + (m / numModulesX) * moduleStride`. -/
def imgLoadModPosY (P : Params) (m : ℕ) : ℤ :=
  P.paddingStart + ((m / P.numModulesX : ℕ) : ℤ) * (P.moduleStride : ℤ)

/-- `imgLoadModPosX = paddingStart + (m % numModulesX) * moduleStride`. -/
def imgLoadModPosX (P : Params) (m : ℕ) : ℤ :=
  P.paddingStart + ((m % P.numModulesX : ℕ) : ℤ) * (P.moduleStride : ℤ)

/-- Read of the images matrix `(numImgColors, imgPixels, numImages)` with
stride, at colour channel `color`, image coordinates `(pxY, pxX)` and image
`cse`: offset `color*imgPixels*imgStride + (pxY*imgSize + pxX)*imgStride +
cse`, exactly the address formed by the kernels' pointer arithmetic. -/
def imgAt (images : Buf) (P : Params) (color : ℕ) (pxY pxX : ℤ) (cse : ℕ) : ℚ :=
  images ((color * imgPixels P * P.imgStride : ℕ) +
    (pxY * (P.imgSize : ℤ) + pxX) * (P.imgStride : ℤ) + (cse : ℤ))

/-- Boundary-guarded image read: the kernels substitute `0` for any pixel
whose coordinates fall outside `[0, imgSize)` in either dimension
(`if (pxY >= 0 && pxY < imgSize && pxX >= 0 && pxX < imgSize)`). -/
def boundedImgAt (images : Buf) (P : Params) (color : ℕ) (pxY pxX : ℤ) (cse : ℕ) : ℚ :=
  if 0 ≤ pxY ∧ pxY < (P.imgSize : ℤ) ∧ 0 ≤ pxX ∧ pxX < (P.imgSize : ℤ) then
    imgAt images P color pxY pxX cse
  else 0

/-- Read of the hidden-activation matrix `(numFilters, numModules,
numImages)`, contiguous: offset `f*numModules*numImages + m*numImages +
cse`, the address formed by the kernels' pointer arithmetic. -/
def hidAt (hidActs : Buf) (P : Params) (f m cse : ℕ) : ℚ :=
  hidActs ((f * (P.numImages * numModules P) + m * P.numImages + cse : ℕ) : ℤ)

/-- Linear offset of entry `(output-module om, filter colour c, filter
pixel p, filter f)` in the contiguous targets matrix
`(numModules/moduleSum, numFilterColors, filterPixels, numFilters)`. -/
def tgtIdx (P : Params) (om c p f : ℕ) : ℕ :=
  ((om * numFilterColors P + c) * filterPixels P + p) * P.numFilters + f

/-- The direct triple-loop reference reduction of the spec (§4.1, §8): for
an output-module block `om`, filter colour `c`, filter pixel `p` and filter
`f`, sum over the `moduleSum` folded modules and all images of
`image[colour, pixel-mapped-from-filter-pixel, image] *
hidAct[filter, module, image]`, where the image colour channel is the
filter's group base colour plus `c` and pixels mapped outside the image
contribute zero. -/
def refGrad (images hidActs : Buf) (P : Params) (om c p f : ℕ) : ℚ :=
  ∑ mi ∈ Finset.range P.modulesPerBlock, ∑ img ∈ Finset.range P.numImages,
    boundedImgAt images P ((f / numFiltersPerGroup P) * numFilterColors P + c)
      (imgLoadModPosY P (om * P.modulesPerBlock + mi) + ((p / P.filterSize : ℕ) : ℤ))
      (imgLoadModPosX P (om * P.modulesPerBlock + mi) + ((p % P.filterSize : ℕ) : ℤ)) img
    * hidAt hidActs P f (om * P.modulesPerBlock + mi) img

/-! ## Embedding of `weight_acts_kernel2_manycolor_manyfilter`
(src/src/cudaconv2/weight_acts.cu lines 411-561) -/

/-- Compile-time template parameters of
`weight_acts_kernel2_manycolor_manyfilter<B_Y, B_X, filtersPerThread,
colorsPerThread, preloadCases, scale, checkCaseBounds>`. -/
structure MFTmpl where
  B_Y : ℕ
  B_X : ℕ
  filtersPerThread : ℕ
  colorsPerThread : ℕ
  preloadCases : ℕ
  scale : Bool
  checkCaseBounds : Bool

namespace MF

variable (K : MFTmpl) (P : Params)

/-- `numFilterBlocks = numFilters / (B_X * filtersPerThread)`. -/
def numFilterBlocks : ℕ := P.numFilters / (K.B_X * K.filtersPerThread)

/-- `outputModuleIdx = blockIdx.x / numFilterBlocks`. -/
def outputModuleIdx (bx : ℕ) : ℕ := bx / numFilterBlocks K P

/-- `moduleIdx = modulesPerBlock * outputModuleIdx`. -/
def moduleIdx (bx : ℕ) : ℕ := P.modulesPerBlock * outputModuleIdx K P bx

/-- `blockFilterIdx = filtersPerThread * B_X * (blockIdx.x % numFilterBlocks)`. -/
def blockFilterIdx (bx : ℕ) : ℕ :=
  K.filtersPerThread * K.B_X * (bx % numFilterBlocks K P)

/-- `blockGroupIdx = blockFilterIdx / numFiltersPerGroup`. -/
def blockGroupIdx (bx : ℕ) : ℕ := blockFilterIdx K P bx / numFiltersPerGroup P

/-- `blockPixelOffset = (blockIdx.y / (numFilterColors/colorsPerThread)) * B_Y`. -/
def blockPixelOffset (by' : ℕ) : ℕ :=
  (by' / (numFilterColors P / K.colorsPerThread)) * K.B_Y

/-- `filterColorIdx = (blockIdx.y % (numFilterColors/colorsPerThread)) *
colorsPerThread`. -/
def filterColorIdx (by' : ℕ) : ℕ :=
  (by' % (numFilterColors P / K.colorsPerThread)) * K.colorsPerThread

/-- `imgColorIdx = filterColorIdx + blockGroupIdx * numFilterColors`. -/
def imgColorIdx (bx by' : ℕ) : ℕ :=
  filterColorIdx K P by' + blockGroupIdx K P bx * numFilterColors P

/-- Contents of the `shImages` scratch array after the load phase of the
iteration for module `m` and case offset `caseIdx`, at colour register `c`,
pixel row `pxIdx`, and case column `i`.  Mirrors lines 478-515: the filter
pixel is `blockPixelOffset + pxIdx` (`pxDivs`/`pxMods` hold its quotient
and remainder by `filterSize`), a pixel beyond `filterPixels`, or a case
beyond `numImages` under `checkCaseBounds`, or image coordinates outside
the image, are loaded as `0`.  Under the kernel's constraint
`preloadCases ∣ B_X * B_Y`, every slot is (re)written by exactly one thread
per iteration, so the post-barrier contents are this function of the loaded
indices. -/
def shImages (images : Buf) (bx by' m caseIdx c pxIdx i : ℕ) : ℚ :=
  if pxIdx + blockPixelOffset K P by' < filterPixels P ∧
      (K.checkCaseBounds = false ∨ caseIdx + i < P.numImages) then
    boundedImgAt images P (imgColorIdx K P bx by' + c)
      (imgLoadModPosY P m + (((blockPixelOffset K P by' + pxIdx) / P.filterSize : ℕ) : ℤ))
      (imgLoadModPosX P m + (((blockPixelOffset K P by' + pxIdx) % P.filterSize : ℕ) : ℤ))
      (caseIdx + i)
  else 0

/-- Contents of the `shHidActs` scratch array after `k` load phases
(iteration `k` handles module `moduleIdx + k / numTiles` and case offset
`preloadCases * (k % numTiles)`, matching the module-outer/case-inner loop
nest of lines 474-541).  Mirrors lines 516-524: row `r` holds
`hidActs[(blockFilterIdx + r)*numModules*numImages + m*numImages + caseIdx
+ j]`; under `checkCaseBounds`, columns with `caseIdx + j >= numImages` are
not written and keep their previous (initially uninitialised `sh0`)
contents. -/
def shHidActs (hidActs : Buf) (bx : ℕ) (sh0 : ℕ → ℕ → ℚ) : ℕ → ℕ → ℕ → ℚ
  | 0 => sh0
  | (k + 1) => fun r j =>
      if K.checkCaseBounds = false ∨
          K.preloadCases * (k % numTiles P K.preloadCases) + j < P.numImages then
        hidAt hidActs P (blockFilterIdx K P bx + r)
          (moduleIdx K P bx + k / numTiles P K.preloadCases)
          (K.preloadCases * (k % numTiles P K.preloadCases) + j)
      else shHidActs hidActs bx sh0 k r j

/-- Register accumulator `prod[c][f]` of thread `(threadIdx.x = tx,
threadIdx.y = ty)` after the full module/case loop nest: the sum over all
iterations and all `preloadCases` columns of
`shImages[threadIdx.y + c*B_Y][i] * shHidActs[threadIdx.x + f*B_X][i]`
(lines 528-537), each iteration's arrays being their post-load contents. -/
def prod (images hidActs : Buf) (sh0 : ℕ → ℕ → ℚ) (bx by' tx ty c f : ℕ) : ℚ :=
  ∑ k ∈ Finset.range (P.modulesPerBlock * numTiles P K.preloadCases),
    ∑ i ∈ Finset.range K.preloadCases,
      shImages K P images bx by' (moduleIdx K P bx + k / numTiles P K.preloadCases)
        (K.preloadCases * (k % numTiles P K.preloadCases)) c ty i
      * shHidActs K P hidActs bx sh0 (k + 1) (tx + f * K.B_X) i

/-- Linear offset into `targets` written by thread `(tx, ty)` for registers
`(c, f)`: the pointer arithmetic of lines 450-454 plus the write offset
`c * filterPixels * numFilters + f * B_X` of lines 548/556. -/
def targetIdx (bx by' tx ty c f : ℕ) : ℕ :=
  outputModuleIdx K P bx * (P.numFilters * filterPixels P * numFilterColors P)
  + filterColorIdx K P by' * (filterPixels P * P.numFilters)
  + blockPixelOffset K P by' * P.numFilters
  + blockFilterIdx K P bx + ty * P.numFilters + tx
  + c * (filterPixels P * P.numFilters) + f * K.B_X

/-- The guarded final write of lines 542-560: thread `(tx, ty)` writes its
`(c, f)` register to `targets` only when `blockPixelOffset + threadIdx.y <
filterPixels`; otherwise nothing is written. -/
def writeIndex? (bx by' tx ty c f : ℕ) : Option ℕ :=
  if blockPixelOffset K P by' + ty < filterPixels P then
    some (targetIdx K P bx by' tx ty c f)
  else none

/-- Value stored by the final write (lines 543-559): with `scale`,
`scaleTargets * targets[idx] + scaleOutput * prod[c][f]`; without,
`prod[c][f]`. -/
def outVal (images hidActs targets : Buf) (sT sO : ℚ) (sh0 : ℕ → ℕ → ℚ)
    (bx by' tx ty c f : ℕ) : ℚ :=
  if K.scale then
    sT * targets ((targetIdx K P bx by' tx ty c f : ℕ) : ℤ)
      + sO * prod K P images hidActs sh0 bx by' tx ty c f
  else prod K P images hidActs sh0 bx by' tx ty c f

/-- Output of the kernel at logical coordinates (output-module block `om`,
filter colour `c`, filter pixel `p`, filter `f`): the value written by the
unique block/thread/register combination whose target address is
`tgtIdx om c p f` (the grid of `convWeightActs` launches exactly one such
combination for every in-range coordinate). -/
def run (images hidActs targets : Buf) (sT sO : ℚ) (sh0 : ℕ → ℕ → ℚ)
    (om c p f : ℕ) : ℚ :=
  outVal K P images hidActs targets sT sO sh0
    (om * numFilterBlocks K P + f / (K.B_X * K.filtersPerThread))
    ((p / K.B_Y) * (numFilterColors P / K.colorsPerThread) + c / K.colorsPerThread)
    (f % (K.B_X * K.filtersPerThread) % K.B_X)
    (p % K.B_Y)
    (c % K.colorsPerThread)
    (f % (K.B_X * K.filtersPerThread) / K.B_X)

end MF

/-- `LO16(x) = (x) & 0x0000FFFF`, i.e. `x % 2^16` for non-negative `x`. -/
def lo16 (x : ℕ) : ℕ := x % 65536

/-- `HI16(x) = (x) >> 16`, i.e. `x / 2^16` for non-negative `x`. -/
def hi16 (x : ℕ) : ℕ := x / 65536

/-! ## Embedding of `weight_acts_kernel2_manycolor`
(src/src/cudaconv2/weight_acts.cu lines 227-379) -/

/-- Compile-time template parameters of
`weight_acts_kernel2_manycolor<B_Y, B_X, pixelsPerThread, colorsPerThread,
preloadCases, scale, checkCaseBounds>`. -/
structure MCTmpl where
  B_Y : ℕ
  B_X : ℕ
  pixelsPerThread : ℕ
  colorsPerThread : ℕ
  preloadCases : ℕ
  scale : Bool
  checkCaseBounds : Bool

namespace MC

variable (K : MCTmpl) (P : Params)

/-- `blocksPerModule = numFilters / B_X`. -/
def blocksPerModule : ℕ := P.numFilters / K.B_X

/-- `outputModuleIdx = blockIdx.x / blocksPerModule`. -/
def outputModuleIdx (bx : ℕ) : ℕ := bx / blocksPerModule K P

/-- `moduleIdx = modulesPerBlock * outputModuleIdx`. -/
def moduleIdx (bx : ℕ) : ℕ := P.modulesPerBlock * outputModuleIdx K P bx

/-- `blockFilterIdx = B_X * (blockIdx.x % blocksPerModule)`. -/
def blockFilterIdx (bx : ℕ) : ℕ := K.B_X * (bx % blocksPerModule K P)

/-- `blockGroupIdx = blockFilterIdx / numFiltersPerGroup`. -/
def blockGroupIdx (bx : ℕ) : ℕ := blockFilterIdx K P bx / numFiltersPerGroup P

/-- `groupColorIdx = blockGroupIdx * numFilterColors`. -/
def groupColorIdx (bx : ℕ) : ℕ := blockGroupIdx K P bx * numFilterColors P

/-- `blockPixelOffset = (blockIdx.y / (numFilterColors/colorsPerThread)) *
B_Y * pixelsPerThread`. -/
def blockPixelOffset (by' : ℕ) : ℕ :=
  (by' / (numFilterColors P / K.colorsPerThread)) * K.B_Y * K.pixelsPerThread

/-- `blockColorIdx = (blockIdx.y % (numFilterColors/colorsPerThread)) *
colorsPerThread`. -/
def blockColorIdx (by' : ℕ) : ℕ :=
  (by' % (numFilterColors P / K.colorsPerThread)) * K.colorsPerThread

/-- Entry `t` of the `pxDivs` scratch table (line 285): the filter-pixel
quotient by `filterSize` in the low 16 bits and the remainder in the high
bits, `((blockPixelOffset + tidx) / filterSize) + (((blockPixelOffset +
tidx) % filterSize) << 16)`. -/
def pxDiv (by' t : ℕ) : ℕ :=
  (blockPixelOffset K P by' + t) / P.filterSize
    + (blockPixelOffset K P by' + t) % P.filterSize * 65536

/-- Contents of the `shImages` scratch array after the load phase for
module `m`, case offset `caseIdx`, colour register `c`, pixel row `pxIdx`
(relative to the block, i.e. filter pixel `blockPixelOffset + pxIdx`), case
column `i`; mirrors lines 292-330 with the same zero-substitution rules as
the many-filter kernel, the pixel coordinates being decoded from the packed
`pxDivs` entry via `LO16`/`HI16`. -/
def shImages (images : Buf) (bx by' m caseIdx c pxIdx i : ℕ) : ℚ :=
  if pxIdx + blockPixelOffset K P by' < filterPixels P ∧
      (K.checkCaseBounds = false ∨ caseIdx + i < P.numImages) then
    boundedImgAt images P (groupColorIdx K P bx + blockColorIdx K P by' + c)
      (imgLoadModPosY P m + (lo16 (pxDiv K P by' pxIdx) : ℤ))
      (imgLoadModPosX P m + (hi16 (pxDiv K P by' pxIdx) : ℤ))
      (caseIdx + i)
  else 0

/-- Contents of the `shHidActs` scratch array after `k` load phases
(lines 331-339), exactly as in the many-filter kernel but with `B_X` rows. -/
def shHidActs (hidActs : Buf) (bx : ℕ) (sh0 : ℕ → ℕ → ℚ) : ℕ → ℕ → ℕ → ℚ
  | 0 => sh0
  | (k + 1) => fun r j =>
      if K.checkCaseBounds = false ∨
          K.preloadCases * (k % numTiles P K.preloadCases) + j < P.numImages then
        hidAt hidActs P (blockFilterIdx K P bx + r)
          (moduleIdx K P bx + k / numTiles P K.preloadCases)
          (K.preloadCases * (k % numTiles P K.preloadCases) + j)
      else shHidActs hidActs bx sh0 k r j

/-- Register accumulator `prod[c][p]` of thread `(tx, ty)` (lines 343-352):
sum over all iterations and case columns of
`shImages[threadIdx.y + p*B_Y + c*pixelsPerThread*B_Y][i] *
shHidActs[threadIdx.x][i]`. -/
def prod (images hidActs : Buf) (sh0 : ℕ → ℕ → ℚ) (bx by' tx ty c pReg : ℕ) : ℚ :=
  ∑ k ∈ Finset.range (P.modulesPerBlock * numTiles P K.preloadCases),
    ∑ i ∈ Finset.range K.preloadCases,
      shImages K P images bx by' (moduleIdx K P bx + k / numTiles P K.preloadCases)
        (K.preloadCases * (k % numTiles P K.preloadCases)) c (ty + pReg * K.B_Y) i
      * shHidActs K P hidActs bx sh0 (k + 1) tx i

/-- Linear offset into `targets` for thread `(tx, ty)`, registers
`(c, pReg)`: the pointer arithmetic of lines 265-269 plus the write offset
`p * B_Y * numFilters + c * filterPixels * numFilters` of lines 364/374. -/
def targetIdx (bx by' tx ty c pReg : ℕ) : ℕ :=
  outputModuleIdx K P bx * (P.numFilters * filterPixels P * numFilterColors P)
  + blockColorIdx K P by' * (filterPixels P * P.numFilters)
  + blockPixelOffset K P by' * P.numFilters
  + blockFilterIdx K P bx + ty * P.numFilters + tx
  + pReg * K.B_Y * P.numFilters + c * (filterPixels P * P.numFilters)

/-- The guarded final write of lines 358-378: the `(c, pReg)` register is
written only when `blockPixelOffset + p * B_Y + threadIdx.y <
filterPixels`. -/
def writeIndex? (bx by' tx ty c pReg : ℕ) : Option ℕ :=
  if blockPixelOffset K P by' + pReg * K.B_Y + ty < filterPixels P then
    some (targetIdx K P bx by' tx ty c pReg)
  else none

/-- Value stored by the final write (lines 358-378). -/
def outVal (images hidActs targets : Buf) (sT sO : ℚ) (sh0 : ℕ → ℕ → ℚ)
    (bx by' tx ty c pReg : ℕ) : ℚ :=
  if K.scale then
    sT * targets ((targetIdx K P bx by' tx ty c pReg : ℕ) : ℤ)
      + sO * prod K P images hidActs sh0 bx by' tx ty c pReg
  else prod K P images hidActs sh0 bx by' tx ty c pReg

/-- Output of the kernel at logical coordinates `(om, c, p, f)`. -/
def run (images hidActs targets : Buf) (sT sO : ℚ) (sh0 : ℕ → ℕ → ℚ)
    (om c p f : ℕ) : ℚ :=
  outVal K P images hidActs targets sT sO sh0
    (om * blocksPerModule K P + f / K.B_X)
    ((p / (K.B_Y * K.pixelsPerThread)) * (numFilterColors P / K.colorsPerThread)
      + c / K.colorsPerThread)
    (f % K.B_X)
    (p % (K.B_Y * K.pixelsPerThread) % K.B_Y)
    (c % K.colorsPerThread)
    (p % (K.B_Y * K.pixelsPerThread) / K.B_Y)

end MC

/-! ## Embedding of `weight_acts_kernel2_color`
(src/src/cudaconv2/weight_acts.cu lines 54-192) -/

/-- Compile-time template parameters of
`weight_acts_kernel2_color<B_Y, B_X, pixelsPerThread, preloadCases,
numColors, scale, checkCaseBounds>`. -/
structure CKTmpl where
  B_Y : ℕ
  B_X : ℕ
  pixelsPerThread : ℕ
  preloadCases : ℕ
  numColors : ℕ
  scale : Bool
  checkCaseBounds : Bool

namespace CK

variable (K : CKTmpl) (P : Params)

/-- `blocksPerModule = numFilters / B_X`. -/
def blocksPerModule : ℕ := P.numFilters / K.B_X

/-- `outputModuleIdx = blockIdx.x / blocksPerModule`. -/
def outputModuleIdx (bx : ℕ) : ℕ := bx / blocksPerModule K P

/-- `moduleIdx = modulesPerBlock * outputModuleIdx`. -/
def moduleIdx (bx : ℕ) : ℕ := P.modulesPerBlock * outputModuleIdx K P bx

/-- `blockFilterIdx = B_X * (blockIdx.x % blocksPerModule)`. -/
def blockFilterIdx (bx : ℕ) : ℕ := K.B_X * (bx % blocksPerModule K P)

/-- `blockPixelOffset = blockIdx.y * B_Y * pixelsPerThread` (this kernel
has no colour batching: `blockIdx.y` indexes pixel batches only; the
`Params` argument is kept for uniformity with the sibling kernels). -/
def blockPixelOffset (_ : Params) (by' : ℕ) : ℕ := by' * K.B_Y * K.pixelsPerThread

/-- Contents of the `shImages` scratch array after the load phase for
module `m`, case offset `caseIdx`, colour `c`, relative pixel row `pxIdx`,
case column `i` (lines 107-144): the absolute filter pixel is
`blockPixelOffset + pxIdx`, and pixels beyond `filterPixels`, cases beyond
`numImages` under `checkCaseBounds`, or coordinates outside the image load
zero; this kernel addresses colours without any group offset. -/
def shImages (images : Buf) (by' m caseIdx c pxIdx i : ℕ) : ℚ :=
  if blockPixelOffset K P by' + pxIdx < filterPixels P ∧
      (K.checkCaseBounds = false ∨ caseIdx + i < P.numImages) then
    boundedImgAt images P c
      (imgLoadModPosY P m + (((blockPixelOffset K P by' + pxIdx) / P.filterSize : ℕ) : ℤ))
      (imgLoadModPosX P m + (((blockPixelOffset K P by' + pxIdx) % P.filterSize : ℕ) : ℤ))
      (caseIdx + i)
  else 0

/-- Contents of the `shHidActs` scratch array after `k` load phases
(lines 145-153), as in the other two kernels. -/
def shHidActs (hidActs : Buf) (bx : ℕ) (sh0 : ℕ → ℕ → ℚ) : ℕ → ℕ → ℕ → ℚ
  | 0 => sh0
  | (k + 1) => fun r j =>
      if K.checkCaseBounds = false ∨
          K.preloadCases * (k % numTiles P K.preloadCases) + j < P.numImages then
        hidAt hidActs P (blockFilterIdx K P bx + r)
          (moduleIdx K P bx + k / numTiles P K.preloadCases)
          (K.preloadCases * (k % numTiles P K.preloadCases) + j)
      else shHidActs hidActs bx sh0 k r j

/-- Register accumulator `prod[c][p]` of thread `(tx, ty)` (lines 156-165):
sum over all iterations and case columns of
`shImages[threadIdx.y + p*B_Y + c*pixelsPerThread*B_Y][i] *
shHidActs[threadIdx.x][i]`. -/
def prod (images hidActs : Buf) (sh0 : ℕ → ℕ → ℚ) (bx by' tx ty c pReg : ℕ) : ℚ :=
  ∑ k ∈ Finset.range (P.modulesPerBlock * numTiles P K.preloadCases),
    ∑ i ∈ Finset.range K.preloadCases,
      shImages K P images by' (moduleIdx K P bx + k / numTiles P K.preloadCases)
        (K.preloadCases * (k % numTiles P K.preloadCases)) c (ty + pReg * K.B_Y) i
      * shHidActs K P hidActs bx sh0 (k + 1) tx i

/-- Linear offset into `targets` for thread `(tx, ty)` and registers
`(c, pReg)`: the pointer arithmetic of lines 87-90 plus the write offset
`p * B_Y * numFilters + c * filterPixels * numFilters` of lines 177/187. -/
def targetIdx (bx by' tx ty c pReg : ℕ) : ℕ :=
  outputModuleIdx K P bx * P.numFilters * (filterPixels P * K.numColors)
  + blockPixelOffset K P by' * P.numFilters
  + blockFilterIdx K P bx + ty * P.numFilters + tx
  + pReg * K.B_Y * P.numFilters + c * (filterPixels P * P.numFilters)

/-- The guarded final write of lines 171-191: the `(c, pReg)` register is
written only when `blockPixelOffset + p * B_Y + threadIdx.y <
filterPixels`. -/
def writeIndex? (bx by' tx ty c pReg : ℕ) : Option ℕ :=
  if blockPixelOffset K P by' + pReg * K.B_Y + ty < filterPixels P then
    some (targetIdx K P bx by' tx ty c pReg)
  else none

/-- Value stored by the final write (lines 171-191). -/
def outVal (images hidActs targets : Buf) (sT sO : ℚ) (sh0 : ℕ → ℕ → ℚ)
    (bx by' tx ty c pReg : ℕ) : ℚ :=
  if K.scale then
    sT * targets ((targetIdx K P bx by' tx ty c pReg : ℕ) : ℤ)
      + sO * prod K P images hidActs sh0 bx by' tx ty c pReg
  else prod K P images hidActs sh0 bx by' tx ty c pReg

/-- Output of the kernel at logical coordinates `(om, c, p, f)`. -/
def run (images hidActs targets : Buf) (sT sO : ℚ) (sh0 : ℕ → ℕ → ℚ)
    (om c p f : ℕ) : ℚ :=
  outVal K P images hidActs targets sT sO sh0
    (om * blocksPerModule K P + f / K.B_X)
    (p / (K.B_Y * K.pixelsPerThread))
    (f % K.B_X)
    (p % (K.B_Y * K.pixelsPerThread) % K.B_Y)
    c
    (p % (K.B_Y * K.pixelsPerThread) / K.B_Y)

end CK

/-! ## The `convWeightActs` dispatcher (lines 580-1027) -/

/-- `int(sqrt((double) imgPixels))` (line 592): the integer square root,
written as an executable count so that concrete instances evaluate. -/
def isqrt (n : ℕ) : ℕ := (List.range (n + 1)).countP (fun k => (k + 1) * (k + 1) ≤ n)

/-- The slice of the `NVMatrix` interface that `convWeightActs` reads:
dimensions, leading stride, transposition and contiguity flags, and the
device buffer. -/
structure Mat where
  rows : ℕ
  cols : ℕ
  stride : ℕ
  trans : Bool
  contig : Bool
  data : Buf

/-- `moduleSum = moduleSum == 0 ? numModules : moduleSum` (line 606). -/
def moduleSumDefault (numModulesX moduleSum0 : ℕ) : ℕ :=
  if moduleSum0 = 0 then numModulesX * numModulesX else moduleSum0

/-- The geometry `convWeightActs` derives from its arguments (lines
589-596), packaged as kernel parameters.  `int(sqrt((double) imgPixels))`
is modelled as `isqrt`. -/
def mkParams (images hidActs : Mat) (numModulesX filterSize : ℕ) (paddingStart : ℤ)
    (moduleStride numImgColors numGroups moduleSum : ℕ) : Params :=
  { numImages := images.cols
    numFilters := hidActs.rows / (numModulesX * numModulesX)
    numModulesX := numModulesX
    imgSize := isqrt (images.rows / numImgColors)
    filterSize := filterSize
    paddingStart := paddingStart
    moduleStride := moduleStride
    imgStride := images.stride
    numImgColors := numImgColors
    modulesPerBlock := moduleSum
    numGroups := numGroups }

/-- The assert chain of `convWeightActs` up to the launch-parameter choice:
lines 598-622 in source order, the `assert(numGroups == 1)` of line 648
(reached exactly when `numFilterColors <= 3`), and the
`assert((by*bx) % preloadCases == 0)` of line 654 with the `by`/`bx`
selection of lines 631-653 (`preloadCases = 32`, line 624).  The whole
call aborts (before any kernel launch) unless every conjunct holds;
collapsing the ordered asserts into one conjunction preserves exactly the
abort-versus-launch behaviour.  Derived values are substituted inline:
`numFilterColors = numImgColors / numGroups`, `numImages = images.cols`,
`imgPixels = images.rows / numImgColors`, `imgSize = isqrt imgPixels`,
`numModules = numModulesX * numModulesX`, `numFilters = hidActs.rows /
numModules`, `numFiltersPerGroup = numFilters / numGroups`. -/
def checksCore (images hidActs targets : Mat) (numModulesX filterSize : ℕ)
    (paddingStart : ℤ) (moduleStride numImgColors numGroups moduleSum : ℕ) : Prop :=
  numImgColors % numGroups = 0
  ∧ hidActs.rows / (numModulesX * numModulesX) % (16 * numGroups) = 0
  ∧ (1 < numGroups ∨ (0 < numImgColors ∧ (numImgColors ≤ 3 ∨ numImgColors % 4 = 0)))
  ∧ (numGroups = 1 ∨ numImgColors / numGroups % 4 = 0)
  ∧ isqrt (images.rows / numImgColors) * isqrt (images.rows / numImgColors)
      = images.rows / numImgColors
  ∧ images.rows = images.rows / numImgColors * numImgColors
  ∧ numModulesX * numModulesX % moduleSum = 0
  ∧ hidActs.cols = images.cols
  ∧ paddingStart ≤ 0
  ∧ (isqrt (images.rows / numImgColors) : ℤ)
      ≤ paddingStart + ((numModulesX * numModulesX : ℕ) - 1 : ℤ) * (moduleStride : ℤ)
        + (filterSize : ℤ)
  ∧ moduleStride ≤ filterSize
  ∧ numModulesX * numModulesX * (hidActs.rows / (numModulesX * numModulesX)) = hidActs.rows
  ∧ images.trans = false
  ∧ hidActs.trans = false
  ∧ hidActs.contig = true
  ∧ targets.trans = false
  ∧ targets.contig = true
  ∧ (3 < numImgColors / numGroups ∨ numGroups = 1)
  ∧ ((if 3 < numImgColors / numGroups then
        (if hidActs.rows / (numModulesX * numModulesX) / numGroups % 32 = 0 then
          (if hidActs.rows / (numModulesX * numModulesX) / numGroups % 64 = 0 then 4 else 8)
            * (if hidActs.rows / (numModulesX * numModulesX) / numGroups % 64 = 0 then 32 else 16)
        else
          (if hidActs.rows / (numModulesX * numModulesX) / numGroups % 32 = 0 then 4 else 8)
            * (if hidActs.rows / (numModulesX * numModulesX) / numGroups % 32 = 0 then 32 else 16))
      else
        (if hidActs.rows / (numModulesX * numModulesX) % 32 = 0 then 4 else 8)
          * (if hidActs.rows / (numModulesX * numModulesX) % 32 = 0 then 32 else 16)) % 32 = 0)

/-- Full pre-launch check: `checksCore` plus the resize-versus-shape rule
of lines 658-663 — when `scaleTargets == 0 && scaleOutput == 1` the target
is resized (no requirement on its current shape); otherwise its shape must
already be `(numModules/moduleSum) * numFilterColors * filterPixels` rows
by `numFilters` columns. -/
def convWeightActsChecks (images hidActs targets : Mat) (numModulesX filterSize : ℕ)
    (paddingStart : ℤ) (moduleStride numImgColors numGroups : ℕ)
    (scaleTargets scaleOutput : ℚ) (moduleSum : ℕ) : Prop :=
  checksCore images hidActs targets numModulesX filterSize paddingStart moduleStride
    numImgColors numGroups moduleSum
  ∧ (scaleTargets = 0 ∧ scaleOutput = 1
      ∨ (targets.rows = numModulesX * numModulesX / moduleSum
            * (numImgColors / numGroups) * (filterSize * filterSize)
        ∧ targets.cols = hidActs.rows / (numModulesX * numModulesX)))

instance checksCoreDecidable (images hidActs targets : Mat) (numModulesX filterSize : ℕ)
    (paddingStart : ℤ) (moduleStride numImgColors numGroups moduleSum : ℕ) :
    Decidable (checksCore images hidActs targets numModulesX filterSize paddingStart
      moduleStride numImgColors numGroups moduleSum) := by
  unfold checksCore
  infer_instance

instance convWeightActsChecksDecidable (images hidActs targets : Mat)
    (numModulesX filterSize : ℕ) (paddingStart : ℤ)
    (moduleStride numImgColors numGroups : ℕ) (scaleTargets scaleOutput : ℚ)
    (moduleSum : ℕ) :
    Decidable (convWeightActsChecks images hidActs targets numModulesX filterSize
      paddingStart moduleStride numImgColors numGroups scaleTargets scaleOutput
      moduleSum) := by
  unfold convWeightActsChecks
  infer_instance

/-- The kernel-selection tree of lines 631-653 and 664-1025, collapsed over
the `scale` and `checkCaseBounds` flags (which become the template booleans
`scaleTargets == 0 && scaleOutput == 1 ? false-scale : scale` and
`numImages % 32 != 0`, lines 656-658): `numFilterColors > 3` selects the
many-colour kernels — the many-filter variant when `numFiltersPerGroup %
32 == 0` (with `B_Y,B_X = 4,32` when `numFiltersPerGroup % 64 == 0`, else
`8,16`, `filtersPerThread = 2`, `colorsPerThread = 8` when
`numFilterColors % 8 == 0` else `4`) and otherwise
`weight_acts_kernel2_manycolor` (`pixelsPerThread = 2`, same colour rule);
`numFilterColors <= 3` selects `weight_acts_kernel2_color` with
`pixelsPerThread` per line 649 and `numColors = numImgColors`
(`numGroups == 1` in this regime). -/
def dispatchKernel (images hidActs targets : Mat) (numModulesX filterSize : ℕ)
    (paddingStart : ℤ) (moduleStride numImgColors numGroups : ℕ)
    (scaleTargets scaleOutput : ℚ) (moduleSum : ℕ) :
    (ℕ → ℕ → ℚ) → ℕ → ℕ → ℕ → ℕ → ℚ :=
  fun sh0 om c p f =>
    if 3 < numImgColors / numGroups then
      if hidActs.rows / (numModulesX * numModulesX) / numGroups % 32 = 0 then
        MF.run
          ⟨if hidActs.rows / (numModulesX * numModulesX) / numGroups % 64 = 0 then 4 else 8,
           if hidActs.rows / (numModulesX * numModulesX) / numGroups % 64 = 0 then 32 else 16,
           2,
           if numImgColors / numGroups % 8 = 0 then 8 else 4,
           32,
           if scaleTargets = 0 ∧ scaleOutput = 1 then false else true,
           if images.cols % 32 = 0 then false else true⟩
          (mkParams images hidActs numModulesX filterSize paddingStart moduleStride
            numImgColors numGroups moduleSum)
          images.data hidActs.data targets.data scaleTargets scaleOutput sh0 om c p f
      else
        MC.run
          ⟨if hidActs.rows / (numModulesX * numModulesX) / numGroups % 32 = 0 then 4 else 8,
           if hidActs.rows / (numModulesX * numModulesX) / numGroups % 32 = 0 then 32 else 16,
           2,
           if numImgColors / numGroups % 8 = 0 then 8 else 4,
           32,
           if scaleTargets = 0 ∧ scaleOutput = 1 then false else true,
           if images.cols % 32 = 0 then false else true⟩
          (mkParams images hidActs numModulesX filterSize paddingStart moduleStride
            numImgColors numGroups moduleSum)
          images.data hidActs.data targets.data scaleTargets scaleOutput sh0 om c p f
    else
      CK.run
        ⟨if hidActs.rows / (numModulesX * numModulesX) % 32 = 0 then 4 else 8,
         if hidActs.rows / (numModulesX * numModulesX) % 32 = 0 then 32 else 16,
         if hidActs.rows / (numModulesX * numModulesX) % 32 = 0 then
           (if numImgColors = 1 then 8 else 5)
         else (if numImgColors = 1 then 5 else 2),
         32,
         numImgColors,
         if scaleTargets = 0 ∧ scaleOutput = 1 then false else true,
         if images.cols % 32 = 0 then false else true⟩
        (mkParams images hidActs numModulesX filterSize paddingStart moduleStride
          numImgColors numGroups moduleSum)
        images.data hidActs.data targets.data scaleTargets scaleOutput sh0 om c p f

/-- Shape and data of the target produced by a successful call: the target
is (re)sized to `(numModules/moduleSum) * numFilterColors * filterPixels`
rows by `numFilters` columns (line 659 / asserts 661-662) and each logical
entry holds the dispatched kernel's output (parameterised by the initial
scratch-memory contents `sh0`). -/
structure LaunchResult where
  rows : ℕ
  cols : ℕ
  out : (ℕ → ℕ → ℚ) → ℕ → ℕ → ℕ → ℕ → ℚ

/-- Functional model of `convWeightActs(images, hidActs, targets,
numModulesX, filterSize, paddingStart, moduleStride, numImgColors,
numGroups, scaleTargets, scaleOutput, moduleSum)` (lines 585-1027): abort
(`none`) unless every assert passes, otherwise launch the selected kernel
over the full grid and return the produced target. -/
def convWeightActs (images hidActs targets : Mat) (numModulesX filterSize : ℕ)
    (paddingStart : ℤ) (moduleStride numImgColors numGroups : ℕ)
    (scaleTargets scaleOutput : ℚ) (moduleSum0 : ℕ) : Option LaunchResult :=
  if convWeightActsChecks images hidActs targets numModulesX filterSize paddingStart
      moduleStride numImgColors numGroups scaleTargets scaleOutput
      (moduleSumDefault numModulesX moduleSum0) then
    some
      { rows := numModulesX * numModulesX / moduleSumDefault numModulesX moduleSum0
          * (numImgColors / numGroups) * (filterSize * filterSize)
        cols := hidActs.rows / (numModulesX * numModulesX)
        out := dispatchKernel images hidActs targets numModulesX filterSize paddingStart
          moduleStride numImgColors numGroups scaleTargets scaleOutput
          (moduleSumDefault numModulesX moduleSum0) }
  else none

/-- The nine-argument overload (lines 580-583): delegates to the full
version with `scaleTargets = 0`, `scaleOutput = 1`, `moduleSum = 0`. -/
def convWeightActsDefault (images hidActs targets : Mat) (numModulesX filterSize : ℕ)
    (paddingStart : ℤ) (moduleStride numImgColors numGroups : ℕ) : Option LaunchResult :=
  convWeightActs images hidActs targets numModulesX filterSize paddingStart moduleStride
    numImgColors numGroups 0 1 0

namespace LayerGraph

/-- Protocol state: per-layer received-input counter, the ordered list of
layers whose computation has run (the execution trace), and the multiset of
still-undelivered notifications, as (sender, receiver) pairs. -/
structure PState (n : ℕ) where
  rcvd : Fin n → ℕ
  trace : List (Fin n)
  pending : List (Fin n × Fin n)

/-- One protocol step over a graph with notification lists `out` and
counter requirements `indeg`: deliver a pending notification to `e.2`,
incrementing its counter; when the counter reaches the requirement the
receiver executes (is appended to the trace) and queues notifications to
all its outgoing neighbours. -/
inductive PStep {n : ℕ} (out : Fin n → List (Fin n)) (indeg : Fin n → ℕ) :
    PState n → PState n → Prop
  | deliver (s : PState n) (e : Fin n × Fin n) (he : e ∈ s.pending)
      (hlt : s.rcvd e.2 + 1 < indeg e.2) :
      PStep out indeg s
        { rcvd := Function.update s.rcvd e.2 (s.rcvd e.2 + 1)
          trace := s.trace
          pending := s.pending.erase e }
  | fire (s : PState n) (e : Fin n × Fin n) (he : e ∈ s.pending)
      (heq : s.rcvd e.2 + 1 = indeg e.2) :
      PStep out indeg s
        { rcvd := Function.update s.rcvd e.2 (s.rcvd e.2 + 1)
          trace := s.trace ++ [e.2]
          pending := s.pending.erase e ++ (out e.2).map (fun w => (e.2, w)) }

/-- Start of a pass: all counters reset to zero, the source layers (zero
requirement: data layers forward, cost layers backward) execute first in
their registration order and queue their notifications. -/
def initState {n : ℕ} (out : Fin n → List (Fin n)) (sources : List (Fin n)) :
    PState n :=
  { rcvd := fun _ => 0
    trace := sources
    pending := sources.flatMap (fun v => (out v).map (fun w => (v, w))) }

/-- Reachability under the protocol. -/
def Reaches {n : ℕ} (out : Fin n → List (Fin n)) (indeg : Fin n → ℕ) :
    PState n → PState n → Prop :=
  Relation.ReflTransGen (PStep out indeg)

/-- The protocol invariant: counters never exceed their requirement; a
layer is in the trace exactly when its counter is full; the trace has no
duplicates; every pending notification was queued by an executed sender
along a real edge; counter plus still-pending notifications equals the
notifications queued by executed senders; and the trace respects the edge
order. -/
structure Inv {n : ℕ} (out : Fin n → List (Fin n)) (indeg : Fin n → ℕ)
    (s : PState n) : Prop where
  le : ∀ v, s.rcvd v ≤ indeg v
  mem_iff : ∀ v, v ∈ s.trace ↔ s.rcvd v = indeg v
  nodup : s.trace.Nodup
  pend : ∀ e ∈ s.pending, e.1 ∈ s.trace ∧ e.2 ∈ out e.1
  count : ∀ v, s.rcvd v + s.pending.countP (fun e => e.2 == v)
            = (s.trace.map (fun u => (out u).count v)).sum
  order : ∀ u v, v ∈ out u → v ∈ s.trace →
            u ∈ s.trace ∧ s.trace.indexOf u < s.trace.indexOf v

/-- The propagation-relevant fields of `class Layer` (layer.cuh lines
36-57): ordered predecessor and successor lists (`_prev`, `_next`) and the
gradient-producer flag (`_gradProducer`). -/
structure Net (n : ℕ) where
  preds : Fin n → List (Fin n)
  succs : Fin n → List (Fin n)
  gradProducer : Fin n → Bool

/-- Forward-pass notifications travel along successor lists
(`fpropNext`). -/
def fwdOut {n : ℕ} (G : Net n) : Fin n → List (Fin n) := G.succs

/-- Forward-pass counter requirement: `_prev.size()` — `_fprop` runs when
`_rcvdFInputs == _prev.size()`. -/
def fwdIndeg {n : ℕ} (G : Net n) (v : Fin n) : ℕ := (G.preds v).length

/-- Backward-pass notifications: a gradient-producing layer signals each
predecessor; a layer that is not a gradient producer never signals back. -/
def bwdOut {n : ℕ} (G : Net n) (v : Fin n) : List (Fin n) :=
  if G.gradProducer v then G.preds v else []

/-- Backward-pass counter requirement: `_numGradProducersNext`, the number
of gradient-producing successors — `bpropActs`/`bpropWeights` run when
`_rcvdBInputs == _numGradProducersNext`. -/
def bwdIndeg {n : ℕ} (G : Net n) (v : Fin n) : ℕ :=
  ((G.succs v).filter (fun w => G.gradProducer w)).length

end LayerGraph

/-- The call-time invariants listed by spec §3 for the convolution
geometry, written from the spec's words (for the refinement claims about
the precondition check): `imageSize² == imagePixels`; full coverage
`paddingStart + (numModulesPerSide − 1)·moduleStride + filterSize ≥
imageSize` with `paddingStart ≤ 0`; `moduleStride ≤ filterSize`;
`numFilters % numGroups == 0`; `numImageColors % numGroups == 0`. -/
def specCallInvariants (images hidActs : Mat) (numModulesX filterSize : ℕ)
    (paddingStart : ℤ) (moduleStride numImgColors numGroups : ℕ) : Prop :=
  isqrt (images.rows / numImgColors) * isqrt (images.rows / numImgColors)
      = images.rows / numImgColors
  ∧ paddingStart ≤ 0
  ∧ (isqrt (images.rows / numImgColors) : ℤ)
      ≤ paddingStart + ((numModulesX : ℤ) - 1) * (moduleStride : ℤ) + (filterSize : ℤ)
  ∧ moduleStride ≤ filterSize
  ∧ hidActs.rows / (numModulesX * numModulesX) % numGroups = 0
  ∧ numImgColors % numGroups = 0

instance specCallInvariantsDecidable (images hidActs : Mat)
    (numModulesX filterSize : ℕ) (paddingStart : ℤ)
    (moduleStride numImgColors numGroups : ℕ) :
    Decidable (specCallInvariants images hidActs numModulesX filterSize paddingStart
      moduleStride numImgColors numGroups) := by
  unfold specCallInvariants
  infer_instance

/-- The colour-count set accepted by the asserts of lines 600-601: with one
group, `numImgColors` must be 1, 2 or 3 or a multiple of 4; with several
groups, `numImgColors / numGroups` must be a multiple of 4. -/
def acceptedColors (numImgColors numGroups : ℕ) : Prop :=
  if numGroups = 1 then
    numImgColors = 1 ∨ numImgColors = 2 ∨ numImgColors = 3 ∨ numImgColors % 4 = 0
  else numImgColors / numGroups % 4 = 0

instance acceptedColorsDecidable (numImgColors numGroups : ℕ) :
    Decidable (acceptedColors numImgColors numGroups) := by
  unfold acceptedColors
  infer_instance

/-- View of a logical-coordinate target function as a linear device buffer
with the contiguous layout `(numModules/moduleSum, numFilterColors,
filterPixels, numFilters)` — the inverse of `tgtIdx`. -/
def linearizeOut (nfc fp nf : ℕ) (g : ℕ → ℕ → ℕ → ℕ → ℚ) : Buf := fun idx =>
  if 0 ≤ idx then
    g (idx.toNat / nf / (nfc * fp)) (idx.toNat / nf % (nfc * fp) / fp)
      (idx.toNat / nf % fp) (idx.toNat % nf)
  else 0


/-- A concrete parameter block exercising all three kernels: 32 images, 64
filters, a single 1x1 module, 4 colours, one group. -/
def demoP : Params :=
  { numImages := 32, numFilters := 64, numModulesX := 1, imgSize := 1,
    filterSize := 1, paddingStart := 0, moduleStride := 1, imgStride := 32,
    numImgColors := 4, modulesPerBlock := 1, numGroups := 1 }

/-- Concrete images matrix: 16 rows (one colour, 4x4 image), 32 images. -/
def demoImages : Mat := ⟨16, 32, 32, false, true, fun _ => 0⟩

/-- Concrete hidden-activation matrix: 4 modules x 16 filters, 32 images. -/
def demoHidActs : Mat := ⟨64, 32, 32, false, true, fun _ => 0⟩

/-- Concrete target matrix shaped for the demo geometry with full folding. -/
def demoTargets : Mat := ⟨1, 16, 16, false, true, fun _ => 0⟩

/-- A two-layer chain (data layer 0 feeding layer 1, both gradient
producers), as a concrete `Net`. -/
def demoNet : LayerGraph.Net 2 :=
  { preds := fun v => if v = 1 then [0] else []
    succs := fun v => if v = 0 then [1] else []
    gradProducer := fun _ => true }

/-- Terminal state of the forward pass over `demoNet`. -/
def demoFwdFinal : LayerGraph.PState 2 :=
  { rcvd := Function.update (fun _ => 0) 1 1, trace := [0, 1], pending := [] }

/-- Terminal state of the backward pass over `demoNet`. -/
def demoBwdFinal : LayerGraph.PState 2 :=
  { rcvd := Function.update (fun _ => 0) 0 1, trace := [1, 0], pending := [] }


/-- The target a successful call produces, as a function of the call
arguments (rows/cols per line 659, data per the dispatched kernel). -/
def launch (images hidActs targets : Mat) (numModulesX filterSize : ℕ)
    (paddingStart : ℤ) (moduleStride numImgColors numGroups : ℕ)
    (scaleTargets scaleOutput : ℚ) (moduleSum0 : ℕ) : LaunchResult :=
  ⟨numModulesX * numModulesX / moduleSumDefault numModulesX moduleSum0
      * (numImgColors / numGroups) * (filterSize * filterSize),
    hidActs.rows / (numModulesX * numModulesX),
    dispatchKernel images hidActs targets numModulesX filterSize paddingStart
      moduleStride numImgColors numGroups scaleTargets scaleOutput
      (moduleSumDefault numModulesX moduleSum0)⟩


/-- One module's contribution to the reference reduction: the sum over all
images of `image[...] * hidAct[filter, module, image]` (the inner summand of
`refGrad`, independent of the folding factor `modulesPerBlock`). -/
def moduleTerm (images hidActs : Buf) (P : Params) (m c p f : ℕ) : ℚ :=
  ∑ img ∈ Finset.range P.numImages,
    boundedImgAt images P ((f / numFiltersPerGroup P) * numFilterColors P + c)
      (imgLoadModPosY P m + ((p / P.filterSize : ℕ) : ℤ))
      (imgLoadModPosX P m + ((p % P.filterSize : ℕ) : ℤ)) img
    * hidAt hidActs P f m img

/-! ## Theorems -/

/-! ## Sum-reindexing helpers -/

/-- Splitting a sum over `range (M * T)` into `M` consecutive chunks. -/
theorem sum_range_mul_split (M T : ℕ) (g : ℕ → ℚ) :
    ∑ k ∈ Finset.range (M * T), g k
      = ∑ a ∈ Finset.range M, ∑ b ∈ Finset.range T, g (a * T + b) := by
  induction M with
  | zero => simp
  | succ M ih =>
      rw [Nat.succ_mul, Finset.sum_range_add, ih, Finset.sum_range_succ]

/-- The same split, phrased through `k / T` and `k % T`. -/
theorem sum_range_mul_divmod (M T : ℕ) (g : ℕ → ℕ → ℚ) :
    ∑ k ∈ Finset.range (M * T), g (k / T) (k % T)
      = ∑ a ∈ Finset.range M, ∑ b ∈ Finset.range T, g a b := by
  rcases Nat.eq_zero_or_pos T with hT | hT
  · subst hT; simp
  · rw [sum_range_mul_split M T (fun k => g (k / T) (k % T))]
    refine Finset.sum_congr rfl fun a _ => Finset.sum_congr rfl fun b hb => ?_
    have hb' : b < T := Finset.mem_range.mp hb
    rw [mul_comm a T, Nat.mul_add_div hT, Nat.mul_add_mod,
      Nat.div_eq_of_lt hb', Nat.mod_eq_of_lt hb', Nat.add_zero]

/-- `ceil(n / pc) * pc` bounds `n` from above. -/
theorem le_divup_mul (n pc : ℕ) (hpc : 0 < pc) :
    n ≤ ((n + pc - 1) / pc) * pc := by
  have h1 : ((n + pc - 1) / pc) * pc ≤ n + pc - 1 := Nat.div_mul_le_self _ _
  have h2 : n + pc - 1 < ((n + pc - 1) / pc + 1) * pc :=
    (Nat.div_lt_iff_lt_mul hpc).mp (Nat.lt_succ_self _)
  have h3 : ((n + pc - 1) / pc + 1) * pc = ((n + pc - 1) / pc) * pc + pc := by ring
  rw [h3] at h2
  set X := ((n + pc - 1) / pc) * pc with hX
  omega

/-- When `pc` divides `n`, the case loop makes exactly `n / pc` iterations
and they tile `range n` exactly. -/
theorem divup_mul_of_dvd (n pc : ℕ) (hpc : 0 < pc) (hdvd : pc ∣ n) :
    ((n + pc - 1) / pc) * pc = n := by
  obtain ⟨m, rfl⟩ := hdvd
  rcases Nat.eq_zero_or_pos m with hm | hm
  · subst hm; simp [Nat.div_eq_of_lt, hpc, Nat.sub_lt hpc]
  · have h1 : pc * m + pc - 1 = pc * m + (pc - 1) := by omega
    rw [h1, Nat.mul_add_div hpc, Nat.div_eq_of_lt (by omega), Nat.add_zero, Nat.mul_comm]

/-- Core tiling identity of the case loop: a doubly tiled, bounds-guarded
sum over `preloadCases`-sized image batches equals the plain sum over all
images.  The guard `ccb = false ∨ pc*t+i < n` is the kernels'
`!checkCaseBounds || caseIdx + loadX < numImages`; when `ccb = false` the
dispatcher guarantees `pc ∣ n`. -/
theorem sum_tiles_eq (pc n : ℕ) (hpc : 0 < pc) (ccb : Bool)
    (hccb : ccb = false → n % pc = 0) (a : ℕ → ℚ) :
    ∑ t ∈ Finset.range ((n + pc - 1) / pc), ∑ i ∈ Finset.range pc,
        (if ccb = false ∨ pc * t + i < n then a (pc * t + i) else 0)
      = ∑ j ∈ Finset.range n, a j := by
  cases ccb with
  | false =>
      have hdvd : pc ∣ n := Nat.dvd_of_mod_eq_zero (hccb rfl)
      have htile := sum_range_mul_split ((n + pc - 1) / pc) pc a
      rw [divup_mul_of_dvd n pc hpc hdvd] at htile
      simp only [eq_self_iff_true, true_or, if_true]
      rw [show (∑ t ∈ Finset.range ((n + pc - 1) / pc), ∑ i ∈ Finset.range pc,
            a (pc * t + i))
          = ∑ t ∈ Finset.range ((n + pc - 1) / pc), ∑ i ∈ Finset.range pc,
            a (t * pc + i) from
        Finset.sum_congr rfl fun t _ => Finset.sum_congr rfl fun i _ => by
          rw [mul_comm t pc]]
      exact htile.symm
  | true =>
      simp only [Bool.true_eq_false, false_or]
      have htile := sum_range_mul_split ((n + pc - 1) / pc) pc
        (fun j => if j < n then a j else 0)
      have hle : n ≤ ((n + pc - 1) / pc) * pc := le_divup_mul n pc hpc
      rw [show (∑ t ∈ Finset.range ((n + pc - 1) / pc), ∑ i ∈ Finset.range pc,
            if pc * t + i < n then a (pc * t + i) else 0)
          = ∑ t ∈ Finset.range ((n + pc - 1) / pc), ∑ i ∈ Finset.range pc,
            (fun j => if j < n then a j else 0) (t * pc + i) from
        Finset.sum_congr rfl fun t _ => Finset.sum_congr rfl fun i _ => by
          rw [mul_comm t pc]]
      rw [← htile]
      rw [← Finset.sum_subset (Finset.range_subset.mpr hle)]
      · exact Finset.sum_congr rfl fun j hj => if_pos (Finset.mem_range.mp hj)
      · intro j _ hj
        exact if_neg (fun h => hj (Finset.mem_range.mpr h))

/-- Unpacking the packed quotient/remainder entry
`x / fs + (x % fs) * 2^16` stored in `pxDivs` by
`weight_acts_kernel2_manycolor` recovers `x / fs` and `x % fs`, provided
the quotient fits in 16 bits — guaranteed whenever `x < fs * fs` and the
filter side fits the machine-representable range `fs ≤ 2^16`. -/
theorem lo16_hi16_pack (fs x : ℕ) (hx : x < fs * fs) (hfs : fs ≤ 65536) :
    lo16 (x / fs + x % fs * 65536) = x / fs
      ∧ hi16 (x / fs + x % fs * 65536) = x % fs := by
  have hfs0 : 0 < fs := by
    rcases Nat.eq_zero_or_pos fs with h | h
    · subst h; omega
    · exact h
  have hd : x / fs < 65536 := lt_of_lt_of_le ((Nat.div_lt_iff_lt_mul hfs0).mpr hx) hfs
  unfold lo16 hi16
  constructor
  · rw [Nat.add_mul_mod_self_right, Nat.mod_eq_of_lt hd]
  · rw [Nat.add_mul_div_right _ _ (by norm_num : (0:ℕ) < 65536),
      Nat.div_eq_of_lt hd, Nat.zero_add]

/-- Recomposing a target offset from its block/thread/register pieces:
used to identify each kernel's pointer arithmetic with `tgtIdx`. -/
theorem target_decomp (nf fp nfc BX BY cpt A om c p f : ℕ) :
    om * (nf * fp * nfc) + c / cpt * cpt * (fp * nf) + p / BY * BY * nf
      + A * (f / A) + p % BY * nf + f % A % BX
      + c % cpt * (fp * nf) + f % A / BX * BX
    = ((om * nfc + c) * fp + p) * nf + f := by
  calc om * (nf * fp * nfc) + c / cpt * cpt * (fp * nf) + p / BY * BY * nf
        + A * (f / A) + p % BY * nf + f % A % BX
        + c % cpt * (fp * nf) + f % A / BX * BX
      = ((om * nfc + (c / cpt * cpt + c % cpt)) * fp + (p / BY * BY + p % BY)) * nf
        + (A * (f / A) + (f % A / BX * BX + f % A % BX)) := by ring
    _ = ((om * nfc + c) * fp + p) * nf + f := by
        rw [Nat.div_add_mod' c cpt, Nat.div_add_mod' p BY, Nat.div_add_mod' (f % A) BX,
          Nat.div_add_mod f A]

namespace MF

/-- Correctness of `weight_acts_kernel2_manycolor_manyfilter`, generic in
its template parameters, under the constraints the kernel's header comment
documents and the dispatcher guarantees: at every in-range logical
coordinate — and for arbitrary initial shared-memory contents `sh0` — the
value written is `scaleTargets * (old target) + scaleOutput * (reference
reduction)`. -/
theorem mf_run_eq (K : MFTmpl) (P : Params) (images hidActs targets : Buf) (sT sO : ℚ)
    (sh0 : ℕ → ℕ → ℚ) (om c p f : ℕ)
    (hBX : 0 < K.B_X) (hfpt : 0 < K.filtersPerThread)
    (hpc : 0 < K.preloadCases)
    (hccb : K.checkCaseBounds = false → P.numImages % K.preloadCases = 0)
    (hscale : K.scale = false → sT = 0 ∧ sO = 1)
    (hfd : (K.B_X * K.filtersPerThread) ∣ numFiltersPerGroup P)
    (hgd : P.numGroups ∣ P.numFilters) (hng : 0 < P.numGroups)
    (hcd : K.colorsPerThread ∣ numFilterColors P)
    (hc : c < numFilterColors P) (hp : p < filterPixels P) (hf : f < P.numFilters) :
    run K P images hidActs targets sT sO sh0 om c p f
      = sT * targets ((tgtIdx P om c p f : ℕ) : ℤ)
        + sO * refGrad images hidActs P om c p f := by
  have hApos : 0 < K.B_X * K.filtersPerThread := Nat.mul_pos hBX hfpt
  have hAnf : (K.B_X * K.filtersPerThread) ∣ P.numFilters := by
    obtain ⟨q, hq⟩ := hgd
    have hnfpg : numFiltersPerGroup P = q := by
      unfold numFiltersPerGroup
      rw [hq, Nat.mul_div_cancel_left q hng]
    rw [hq]
    exact Dvd.dvd.mul_left (hnfpg ▸ hfd) P.numGroups
  have hfA : f / (K.B_X * K.filtersPerThread) < numFilterBlocks K P :=
    Nat.div_lt_div_of_lt_of_dvd hAnf hf
  have hnfbpos : 0 < numFilterBlocks K P := lt_of_le_of_lt (Nat.zero_le _) hfA
  have hcD : c / K.colorsPerThread < numFilterColors P / K.colorsPerThread :=
    Nat.div_lt_div_of_lt_of_dvd hcd hc
  have hDpos : 0 < numFilterColors P / K.colorsPerThread :=
    lt_of_le_of_lt (Nat.zero_le _) hcD
  -- block-index decode facts
  have hbxmod : (om * numFilterBlocks K P + f / (K.B_X * K.filtersPerThread))
      % numFilterBlocks K P = f / (K.B_X * K.filtersPerThread) := by
    rw [mul_comm om (numFilterBlocks K P), Nat.mul_add_mod, Nat.mod_eq_of_lt hfA]
  have h1 : outputModuleIdx K P
      (om * numFilterBlocks K P + f / (K.B_X * K.filtersPerThread)) = om := by
    unfold outputModuleIdx
    rw [mul_comm om (numFilterBlocks K P), Nat.mul_add_div hnfbpos,
      Nat.div_eq_of_lt hfA, Nat.add_zero]
  have h2 : moduleIdx K P
      (om * numFilterBlocks K P + f / (K.B_X * K.filtersPerThread))
      = om * P.modulesPerBlock := by
    unfold moduleIdx
    rw [h1, mul_comm]
  have h3 : blockFilterIdx K P
      (om * numFilterBlocks K P + f / (K.B_X * K.filtersPerThread))
      = K.B_X * K.filtersPerThread * (f / (K.B_X * K.filtersPerThread)) := by
    unfold blockFilterIdx
    rw [hbxmod]
    ring
  have h4 : blockGroupIdx K P
      (om * numFilterBlocks K P + f / (K.B_X * K.filtersPerThread))
      = f / numFiltersPerGroup P := by
    unfold blockGroupIdx
    rw [h3]
    obtain ⟨q2, hq2⟩ := hfd
    rw [hq2, Nat.mul_div_mul_left _ _ hApos, Nat.div_div_eq_div_mul, ← hq2]
  have h8 : blockFilterIdx K P
        (om * numFilterBlocks K P + f / (K.B_X * K.filtersPerThread))
      + (f % (K.B_X * K.filtersPerThread) % K.B_X
         + f % (K.B_X * K.filtersPerThread) / K.B_X * K.B_X) = f := by
    rw [h3, Nat.mod_add_div' (f % (K.B_X * K.filtersPerThread)) K.B_X,
      Nat.div_add_mod f (K.B_X * K.filtersPerThread)]
  -- blockIdx.y decode facts
  have h5 : blockPixelOffset K P
      ((p / K.B_Y) * (numFilterColors P / K.colorsPerThread) + c / K.colorsPerThread)
      = p / K.B_Y * K.B_Y := by
    unfold blockPixelOffset
    rw [mul_comm (p / K.B_Y) _, Nat.mul_add_div hDpos, Nat.div_eq_of_lt hcD,
      Nat.add_zero]
  have h6 : filterColorIdx K P
      ((p / K.B_Y) * (numFilterColors P / K.colorsPerThread) + c / K.colorsPerThread)
      = c / K.colorsPerThread * K.colorsPerThread := by
    unfold filterColorIdx
    rw [mul_comm (p / K.B_Y) (numFilterColors P / K.colorsPerThread),
      Nat.mul_add_mod, Nat.mod_eq_of_lt hcD]
  have h9 : blockPixelOffset K P
      ((p / K.B_Y) * (numFilterColors P / K.colorsPerThread) + c / K.colorsPerThread)
      + p % K.B_Y = p := by
    rw [h5, Nat.div_add_mod' p K.B_Y]
  have h9' : p % K.B_Y + blockPixelOffset K P
      ((p / K.B_Y) * (numFilterColors P / K.colorsPerThread) + c / K.colorsPerThread)
      = p := by
    rw [add_comm]
    exact h9
  have h7 : imgColorIdx K P
        (om * numFilterBlocks K P + f / (K.B_X * K.filtersPerThread))
        ((p / K.B_Y) * (numFilterColors P / K.colorsPerThread) + c / K.colorsPerThread)
      + c % K.colorsPerThread
      = f / numFiltersPerGroup P * numFilterColors P + c := by
    unfold imgColorIdx
    rw [h6, h4]
    calc c / K.colorsPerThread * K.colorsPerThread
          + f / numFiltersPerGroup P * numFilterColors P + c % K.colorsPerThread
        = (c / K.colorsPerThread * K.colorsPerThread + c % K.colorsPerThread)
          + f / numFiltersPerGroup P * numFilterColors P := by ring
      _ = f / numFiltersPerGroup P * numFilterColors P + c := by
          rw [Nat.div_add_mod' c K.colorsPerThread, add_comm]
  -- the accumulated register equals the reference reduction
  have hprod : prod K P images hidActs sh0
      (om * numFilterBlocks K P + f / (K.B_X * K.filtersPerThread))
      ((p / K.B_Y) * (numFilterColors P / K.colorsPerThread) + c / K.colorsPerThread)
      (f % (K.B_X * K.filtersPerThread) % K.B_X) (p % K.B_Y)
      (c % K.colorsPerThread) (f % (K.B_X * K.filtersPerThread) / K.B_X)
      = refGrad images hidActs P om c p f := by
    unfold prod refGrad
    calc ∑ k ∈ Finset.range (P.modulesPerBlock * numTiles P K.preloadCases),
          ∑ i ∈ Finset.range K.preloadCases,
            shImages K P images
              (om * numFilterBlocks K P + f / (K.B_X * K.filtersPerThread))
              ((p / K.B_Y) * (numFilterColors P / K.colorsPerThread) + c / K.colorsPerThread)
              (moduleIdx K P (om * numFilterBlocks K P + f / (K.B_X * K.filtersPerThread))
                + k / numTiles P K.preloadCases)
              (K.preloadCases * (k % numTiles P K.preloadCases)) (c % K.colorsPerThread)
              (p % K.B_Y) i
            * shHidActs K P hidActs
              (om * numFilterBlocks K P + f / (K.B_X * K.filtersPerThread)) sh0 (k + 1)
              (f % (K.B_X * K.filtersPerThread) % K.B_X
                + f % (K.B_X * K.filtersPerThread) / K.B_X * K.B_X) i
        = ∑ k ∈ Finset.range (P.modulesPerBlock * numTiles P K.preloadCases),
            (fun a b => ∑ i ∈ Finset.range K.preloadCases,
              if K.checkCaseBounds = false ∨ K.preloadCases * b + i < P.numImages then
                boundedImgAt images P
                  (f / numFiltersPerGroup P * numFilterColors P + c)
                  (imgLoadModPosY P (om * P.modulesPerBlock + a) + ((p / P.filterSize : ℕ) : ℤ))
                  (imgLoadModPosX P (om * P.modulesPerBlock + a) + ((p % P.filterSize : ℕ) : ℤ))
                  (K.preloadCases * b + i)
                * hidAt hidActs P f (om * P.modulesPerBlock + a) (K.preloadCases * b + i)
              else 0)
            (k / numTiles P K.preloadCases) (k % numTiles P K.preloadCases) := by
          refine Finset.sum_congr rfl fun k _ => Finset.sum_congr rfl fun i _ => ?_
          by_cases hcond : (K.checkCaseBounds = false ∨
              K.preloadCases * (k % numTiles P K.preloadCases) + i < P.numImages)
          · have hhid : shHidActs K P hidActs
                (om * numFilterBlocks K P + f / (K.B_X * K.filtersPerThread)) sh0 (k + 1)
                (f % (K.B_X * K.filtersPerThread) % K.B_X
                  + f % (K.B_X * K.filtersPerThread) / K.B_X * K.B_X) i
                = hidAt hidActs P f
                  (om * P.modulesPerBlock + k / numTiles P K.preloadCases)
                  (K.preloadCases * (k % numTiles P K.preloadCases) + i) := by
              simp only [shHidActs]
              rw [if_pos hcond, h8, h2]
            have himg : shImages K P images
                (om * numFilterBlocks K P + f / (K.B_X * K.filtersPerThread))
                ((p / K.B_Y) * (numFilterColors P / K.colorsPerThread) + c / K.colorsPerThread)
                (moduleIdx K P (om * numFilterBlocks K P + f / (K.B_X * K.filtersPerThread))
                  + k / numTiles P K.preloadCases)
                (K.preloadCases * (k % numTiles P K.preloadCases)) (c % K.colorsPerThread)
                (p % K.B_Y) i
                = boundedImgAt images P
                  (f / numFiltersPerGroup P * numFilterColors P + c)
                  (imgLoadModPosY P (om * P.modulesPerBlock + k / numTiles P K.preloadCases)
                    + ((p / P.filterSize : ℕ) : ℤ))
                  (imgLoadModPosX P (om * P.modulesPerBlock + k / numTiles P K.preloadCases)
                    + ((p % P.filterSize : ℕ) : ℤ))
                  (K.preloadCases * (k % numTiles P K.preloadCases) + i) := by
              unfold shImages
              rw [if_pos ⟨by rw [h9']; exact hp, hcond⟩, h9, h7, h2]
            rw [hhid, himg, if_pos hcond]
          · have himg0 : shImages K P images
                (om * numFilterBlocks K P + f / (K.B_X * K.filtersPerThread))
                ((p / K.B_Y) * (numFilterColors P / K.colorsPerThread) + c / K.colorsPerThread)
                (moduleIdx K P (om * numFilterBlocks K P + f / (K.B_X * K.filtersPerThread))
                  + k / numTiles P K.preloadCases)
                (K.preloadCases * (k % numTiles P K.preloadCases)) (c % K.colorsPerThread)
                (p % K.B_Y) i = 0 := by
              unfold shImages
              rw [if_neg]
              intro hcontra
              exact hcond hcontra.2
            rw [himg0, zero_mul, if_neg hcond]
      _ = ∑ mi ∈ Finset.range P.modulesPerBlock, ∑ t ∈ Finset.range (numTiles P K.preloadCases),
            ∑ i ∈ Finset.range K.preloadCases,
              (if K.checkCaseBounds = false ∨ K.preloadCases * t + i < P.numImages then
                boundedImgAt images P
                  (f / numFiltersPerGroup P * numFilterColors P + c)
                  (imgLoadModPosY P (om * P.modulesPerBlock + mi) + ((p / P.filterSize : ℕ) : ℤ))
                  (imgLoadModPosX P (om * P.modulesPerBlock + mi) + ((p % P.filterSize : ℕ) : ℤ))
                  (K.preloadCases * t + i)
                * hidAt hidActs P f (om * P.modulesPerBlock + mi) (K.preloadCases * t + i)
              else 0) :=
          sum_range_mul_divmod P.modulesPerBlock (numTiles P K.preloadCases)
            (fun a b => ∑ i ∈ Finset.range K.preloadCases,
              if K.checkCaseBounds = false ∨ K.preloadCases * b + i < P.numImages then
                boundedImgAt images P
                  (f / numFiltersPerGroup P * numFilterColors P + c)
                  (imgLoadModPosY P (om * P.modulesPerBlock + a) + ((p / P.filterSize : ℕ) : ℤ))
                  (imgLoadModPosX P (om * P.modulesPerBlock + a) + ((p % P.filterSize : ℕ) : ℤ))
                  (K.preloadCases * b + i)
                * hidAt hidActs P f (om * P.modulesPerBlock + a) (K.preloadCases * b + i)
              else 0)
      _ = ∑ mi ∈ Finset.range P.modulesPerBlock, ∑ img ∈ Finset.range P.numImages,
            boundedImgAt images P (f / numFiltersPerGroup P * numFilterColors P + c)
              (imgLoadModPosY P (om * P.modulesPerBlock + mi) + ((p / P.filterSize : ℕ) : ℤ))
              (imgLoadModPosX P (om * P.modulesPerBlock + mi) + ((p % P.filterSize : ℕ) : ℤ))
              img
            * hidAt hidActs P f (om * P.modulesPerBlock + mi) img :=
          Finset.sum_congr rfl fun mi _ =>
            sum_tiles_eq K.preloadCases P.numImages hpc K.checkCaseBounds hccb
              (fun j => boundedImgAt images P
                  (f / numFiltersPerGroup P * numFilterColors P + c)
                  (imgLoadModPosY P (om * P.modulesPerBlock + mi) + ((p / P.filterSize : ℕ) : ℤ))
                  (imgLoadModPosX P (om * P.modulesPerBlock + mi) + ((p % P.filterSize : ℕ) : ℤ))
                  j
                * hidAt hidActs P f (om * P.modulesPerBlock + mi) j)
  -- final write
  unfold run outVal
  cases hs : K.scale with
  | false =>
      obtain ⟨h0, h1'⟩ := hscale hs
      rw [if_neg Bool.false_ne_true]
      rw [hprod, h0, h1', zero_mul, one_mul, zero_add]
  | true =>
      rw [if_pos rfl]
      have hidx : targetIdx K P
          (om * numFilterBlocks K P + f / (K.B_X * K.filtersPerThread))
          ((p / K.B_Y) * (numFilterColors P / K.colorsPerThread) + c / K.colorsPerThread)
          (f % (K.B_X * K.filtersPerThread) % K.B_X) (p % K.B_Y)
          (c % K.colorsPerThread) (f % (K.B_X * K.filtersPerThread) / K.B_X)
          = tgtIdx P om c p f := by
        unfold targetIdx tgtIdx
        rw [h1, h3, h5, h6]
        exact target_decomp P.numFilters (filterPixels P) (numFilterColors P)
          K.B_X K.B_Y K.colorsPerThread (K.B_X * K.filtersPerThread) om c p f
      rw [hidx, hprod]

end MF

/-- Offset recomposition for the many-colour kernel's pointer arithmetic. -/
theorem mc_target_decomp (nf fp nfc BX BY ppt cpt om c p f : ℕ) :
    om * (nf * fp * nfc) + c / cpt * cpt * (fp * nf)
      + p / (BY * ppt) * BY * ppt * nf + BX * (f / BX)
      + p % (BY * ppt) % BY * nf + f % BX
      + p % (BY * ppt) / BY * BY * nf + c % cpt * (fp * nf)
    = ((om * nfc + c) * fp + p) * nf + f := by
  calc om * (nf * fp * nfc) + c / cpt * cpt * (fp * nf)
        + p / (BY * ppt) * BY * ppt * nf + BX * (f / BX)
        + p % (BY * ppt) % BY * nf + f % BX
        + p % (BY * ppt) / BY * BY * nf + c % cpt * (fp * nf)
      = ((om * nfc + (c / cpt * cpt + c % cpt)) * fp
          + (p / (BY * ppt) * (BY * ppt)
            + (p % (BY * ppt) / BY * BY + p % (BY * ppt) % BY))) * nf
        + (BX * (f / BX) + f % BX) := by ring
    _ = ((om * nfc + c) * fp + p) * nf + f := by
        rw [Nat.div_add_mod' c cpt, Nat.div_add_mod' (p % (BY * ppt)) BY,
          Nat.div_add_mod' p (BY * ppt), Nat.div_add_mod f BX]

namespace MC

/-- Correctness of `weight_acts_kernel2_manycolor`, generic in its template
parameters, under the constraints its header comment documents and the
dispatcher guarantees (plus the machine-representability bound `filterSize
≤ 2^16` needed by the 16-bit `pxDivs` packing): at every in-range logical
coordinate, and for arbitrary initial shared-memory contents, the value
written is `scaleTargets * (old target) + scaleOutput * (reference
reduction)`. -/
theorem mc_run_eq (K : MCTmpl) (P : Params) (images hidActs targets : Buf) (sT sO : ℚ)
    (sh0 : ℕ → ℕ → ℚ) (om c p f : ℕ)
    (hpc : 0 < K.preloadCases)
    (hccb : K.checkCaseBounds = false → P.numImages % K.preloadCases = 0)
    (hscale : K.scale = false → sT = 0 ∧ sO = 1)
    (hfd : K.B_X ∣ numFiltersPerGroup P)
    (hgd : P.numGroups ∣ P.numFilters) (hng : 0 < P.numGroups)
    (hcd : K.colorsPerThread ∣ numFilterColors P)
    (hfs : P.filterSize ≤ 65536)
    (hc : c < numFilterColors P) (hp : p < filterPixels P) (hf : f < P.numFilters) :
    run K P images hidActs targets sT sO sh0 om c p f
      = sT * targets ((tgtIdx P om c p f : ℕ) : ℤ)
        + sO * refGrad images hidActs P om c p f := by
  have hAnf : K.B_X ∣ P.numFilters := by
    obtain ⟨q, hq⟩ := hgd
    have hnfpg : numFiltersPerGroup P = q := by
      unfold numFiltersPerGroup
      rw [hq, Nat.mul_div_cancel_left q hng]
    rw [hq]
    exact Dvd.dvd.mul_left (hnfpg ▸ hfd) P.numGroups
  have hfA : f / K.B_X < blocksPerModule K P := Nat.div_lt_div_of_lt_of_dvd hAnf hf
  have hBXpos : 0 < K.B_X := by
    rcases Nat.eq_zero_or_pos K.B_X with h | h
    · exfalso
      rw [h] at hfd
      have : numFiltersPerGroup P = 0 := Nat.eq_zero_of_zero_dvd hfd
      have : P.numFilters = 0 := Nat.eq_zero_of_zero_dvd (by rw [h] at hAnf; exact hAnf)
      omega
    · exact h
  have hbpmpos : 0 < blocksPerModule K P := lt_of_le_of_lt (Nat.zero_le _) hfA
  have hcD : c / K.colorsPerThread < numFilterColors P / K.colorsPerThread :=
    Nat.div_lt_div_of_lt_of_dvd hcd hc
  have hDpos : 0 < numFilterColors P / K.colorsPerThread :=
    lt_of_le_of_lt (Nat.zero_le _) hcD
  have hbxmod : (om * blocksPerModule K P + f / K.B_X) % blocksPerModule K P
      = f / K.B_X := by
    rw [mul_comm om (blocksPerModule K P), Nat.mul_add_mod, Nat.mod_eq_of_lt hfA]
  have h1 : outputModuleIdx K P (om * blocksPerModule K P + f / K.B_X) = om := by
    unfold outputModuleIdx
    rw [mul_comm om (blocksPerModule K P), Nat.mul_add_div hbpmpos,
      Nat.div_eq_of_lt hfA, Nat.add_zero]
  have h2 : moduleIdx K P (om * blocksPerModule K P + f / K.B_X)
      = om * P.modulesPerBlock := by
    unfold moduleIdx
    rw [h1, mul_comm]
  have h3 : blockFilterIdx K P (om * blocksPerModule K P + f / K.B_X)
      = K.B_X * (f / K.B_X) := by
    unfold blockFilterIdx
    rw [hbxmod]
  have h4 : blockGroupIdx K P (om * blocksPerModule K P + f / K.B_X)
      = f / numFiltersPerGroup P := by
    unfold blockGroupIdx
    rw [h3]
    obtain ⟨q2, hq2⟩ := hfd
    rw [hq2, Nat.mul_div_mul_left _ _ hBXpos, Nat.div_div_eq_div_mul, ← hq2]
  have h8 : blockFilterIdx K P (om * blocksPerModule K P + f / K.B_X)
      + f % K.B_X = f := by
    rw [h3]
    exact Nat.div_add_mod f K.B_X
  have h5 : blockPixelOffset K P
      ((p / (K.B_Y * K.pixelsPerThread)) * (numFilterColors P / K.colorsPerThread)
        + c / K.colorsPerThread)
      = p / (K.B_Y * K.pixelsPerThread) * K.B_Y * K.pixelsPerThread := by
    unfold blockPixelOffset
    rw [mul_comm (p / (K.B_Y * K.pixelsPerThread)) (numFilterColors P / K.colorsPerThread),
      Nat.mul_add_div hDpos, Nat.div_eq_of_lt hcD, Nat.add_zero]
  have h6 : blockColorIdx K P
      ((p / (K.B_Y * K.pixelsPerThread)) * (numFilterColors P / K.colorsPerThread)
        + c / K.colorsPerThread)
      = c / K.colorsPerThread * K.colorsPerThread := by
    unfold blockColorIdx
    rw [mul_comm (p / (K.B_Y * K.pixelsPerThread)) (numFilterColors P / K.colorsPerThread),
      Nat.mul_add_mod, Nat.mod_eq_of_lt hcD]
  have h9 : blockPixelOffset K P
      ((p / (K.B_Y * K.pixelsPerThread)) * (numFilterColors P / K.colorsPerThread)
        + c / K.colorsPerThread)
      + (p % (K.B_Y * K.pixelsPerThread) % K.B_Y
        + p % (K.B_Y * K.pixelsPerThread) / K.B_Y * K.B_Y) = p := by
    rw [h5, Nat.mod_add_div' (p % (K.B_Y * K.pixelsPerThread)) K.B_Y, mul_assoc,
      Nat.div_add_mod' p (K.B_Y * K.pixelsPerThread)]
  have h9' : (p % (K.B_Y * K.pixelsPerThread) % K.B_Y
        + p % (K.B_Y * K.pixelsPerThread) / K.B_Y * K.B_Y)
      + blockPixelOffset K P
        ((p / (K.B_Y * K.pixelsPerThread)) * (numFilterColors P / K.colorsPerThread)
          + c / K.colorsPerThread) = p := by
    rw [add_comm]
    exact h9
  have h7 : groupColorIdx K P (om * blocksPerModule K P + f / K.B_X)
      + blockColorIdx K P
        ((p / (K.B_Y * K.pixelsPerThread)) * (numFilterColors P / K.colorsPerThread)
          + c / K.colorsPerThread)
      + c % K.colorsPerThread
      = f / numFiltersPerGroup P * numFilterColors P + c := by
    unfold groupColorIdx
    rw [h6, h4]
    calc f / numFiltersPerGroup P * numFilterColors P
          + c / K.colorsPerThread * K.colorsPerThread + c % K.colorsPerThread
        = f / numFiltersPerGroup P * numFilterColors P
          + (c / K.colorsPerThread * K.colorsPerThread + c % K.colorsPerThread) := by ring
      _ = f / numFiltersPerGroup P * numFilterColors P + c := by
          rw [Nat.div_add_mod' c K.colorsPerThread]
  have hpack := lo16_hi16_pack P.filterSize p hp hfs
  have hpx : pxDiv K P
      ((p / (K.B_Y * K.pixelsPerThread)) * (numFilterColors P / K.colorsPerThread)
        + c / K.colorsPerThread)
      (p % (K.B_Y * K.pixelsPerThread) % K.B_Y
        + p % (K.B_Y * K.pixelsPerThread) / K.B_Y * K.B_Y)
      = p / P.filterSize + p % P.filterSize * 65536 := by
    unfold pxDiv
    rw [h9]
  have hprod : prod K P images hidActs sh0
      (om * blocksPerModule K P + f / K.B_X)
      ((p / (K.B_Y * K.pixelsPerThread)) * (numFilterColors P / K.colorsPerThread)
        + c / K.colorsPerThread)
      (f % K.B_X) (p % (K.B_Y * K.pixelsPerThread) % K.B_Y)
      (c % K.colorsPerThread) (p % (K.B_Y * K.pixelsPerThread) / K.B_Y)
      = refGrad images hidActs P om c p f := by
    unfold prod refGrad
    calc ∑ k ∈ Finset.range (P.modulesPerBlock * numTiles P K.preloadCases),
          ∑ i ∈ Finset.range K.preloadCases,
            shImages K P images
              (om * blocksPerModule K P + f / K.B_X)
              ((p / (K.B_Y * K.pixelsPerThread)) * (numFilterColors P / K.colorsPerThread)
                + c / K.colorsPerThread)
              (moduleIdx K P (om * blocksPerModule K P + f / K.B_X)
                + k / numTiles P K.preloadCases)
              (K.preloadCases * (k % numTiles P K.preloadCases)) (c % K.colorsPerThread)
              (p % (K.B_Y * K.pixelsPerThread) % K.B_Y
                + p % (K.B_Y * K.pixelsPerThread) / K.B_Y * K.B_Y) i
            * shHidActs K P hidActs
              (om * blocksPerModule K P + f / K.B_X) sh0 (k + 1) (f % K.B_X) i
        = ∑ k ∈ Finset.range (P.modulesPerBlock * numTiles P K.preloadCases),
            (fun a b => ∑ i ∈ Finset.range K.preloadCases,
              if K.checkCaseBounds = false ∨ K.preloadCases * b + i < P.numImages then
                boundedImgAt images P
                  (f / numFiltersPerGroup P * numFilterColors P + c)
                  (imgLoadModPosY P (om * P.modulesPerBlock + a) + ((p / P.filterSize : ℕ) : ℤ))
                  (imgLoadModPosX P (om * P.modulesPerBlock + a) + ((p % P.filterSize : ℕ) : ℤ))
                  (K.preloadCases * b + i)
                * hidAt hidActs P f (om * P.modulesPerBlock + a) (K.preloadCases * b + i)
              else 0)
            (k / numTiles P K.preloadCases) (k % numTiles P K.preloadCases) := by
          refine Finset.sum_congr rfl fun k _ => Finset.sum_congr rfl fun i _ => ?_
          by_cases hcond : (K.checkCaseBounds = false ∨
              K.preloadCases * (k % numTiles P K.preloadCases) + i < P.numImages)
          · have hhid : shHidActs K P hidActs
                (om * blocksPerModule K P + f / K.B_X) sh0 (k + 1) (f % K.B_X) i
                = hidAt hidActs P f
                  (om * P.modulesPerBlock + k / numTiles P K.preloadCases)
                  (K.preloadCases * (k % numTiles P K.preloadCases) + i) := by
              simp only [shHidActs]
              rw [if_pos hcond, h8, h2]
            have himg : shImages K P images
                (om * blocksPerModule K P + f / K.B_X)
                ((p / (K.B_Y * K.pixelsPerThread)) * (numFilterColors P / K.colorsPerThread)
                  + c / K.colorsPerThread)
                (moduleIdx K P (om * blocksPerModule K P + f / K.B_X)
                  + k / numTiles P K.preloadCases)
                (K.preloadCases * (k % numTiles P K.preloadCases)) (c % K.colorsPerThread)
                (p % (K.B_Y * K.pixelsPerThread) % K.B_Y
                  + p % (K.B_Y * K.pixelsPerThread) / K.B_Y * K.B_Y) i
                = boundedImgAt images P
                  (f / numFiltersPerGroup P * numFilterColors P + c)
                  (imgLoadModPosY P (om * P.modulesPerBlock + k / numTiles P K.preloadCases)
                    + ((p / P.filterSize : ℕ) : ℤ))
                  (imgLoadModPosX P (om * P.modulesPerBlock + k / numTiles P K.preloadCases)
                    + ((p % P.filterSize : ℕ) : ℤ))
                  (K.preloadCases * (k % numTiles P K.preloadCases) + i) := by
              unfold shImages
              rw [if_pos ⟨by rw [h9']; exact hp, hcond⟩, hpx, hpack.1, hpack.2, h7, h2]
            rw [hhid, himg, if_pos hcond]
          · have himg0 : shImages K P images
                (om * blocksPerModule K P + f / K.B_X)
                ((p / (K.B_Y * K.pixelsPerThread)) * (numFilterColors P / K.colorsPerThread)
                  + c / K.colorsPerThread)
                (moduleIdx K P (om * blocksPerModule K P + f / K.B_X)
                  + k / numTiles P K.preloadCases)
                (K.preloadCases * (k % numTiles P K.preloadCases)) (c % K.colorsPerThread)
                (p % (K.B_Y * K.pixelsPerThread) % K.B_Y
                  + p % (K.B_Y * K.pixelsPerThread) / K.B_Y * K.B_Y) i = 0 := by
              unfold shImages
              rw [if_neg]
              intro hcontra
              exact hcond hcontra.2
            rw [himg0, zero_mul, if_neg hcond]
      _ = ∑ mi ∈ Finset.range P.modulesPerBlock, ∑ t ∈ Finset.range (numTiles P K.preloadCases),
            ∑ i ∈ Finset.range K.preloadCases,
              (if K.checkCaseBounds = false ∨ K.preloadCases * t + i < P.numImages then
                boundedImgAt images P
                  (f / numFiltersPerGroup P * numFilterColors P + c)
                  (imgLoadModPosY P (om * P.modulesPerBlock + mi) + ((p / P.filterSize : ℕ) : ℤ))
                  (imgLoadModPosX P (om * P.modulesPerBlock + mi) + ((p % P.filterSize : ℕ) : ℤ))
                  (K.preloadCases * t + i)
                * hidAt hidActs P f (om * P.modulesPerBlock + mi) (K.preloadCases * t + i)
              else 0) :=
          sum_range_mul_divmod P.modulesPerBlock (numTiles P K.preloadCases)
            (fun a b => ∑ i ∈ Finset.range K.preloadCases,
              if K.checkCaseBounds = false ∨ K.preloadCases * b + i < P.numImages then
                boundedImgAt images P
                  (f / numFiltersPerGroup P * numFilterColors P + c)
                  (imgLoadModPosY P (om * P.modulesPerBlock + a) + ((p / P.filterSize : ℕ) : ℤ))
                  (imgLoadModPosX P (om * P.modulesPerBlock + a) + ((p % P.filterSize : ℕ) : ℤ))
                  (K.preloadCases * b + i)
                * hidAt hidActs P f (om * P.modulesPerBlock + a) (K.preloadCases * b + i)
              else 0)
      _ = ∑ mi ∈ Finset.range P.modulesPerBlock, ∑ img ∈ Finset.range P.numImages,
            boundedImgAt images P (f / numFiltersPerGroup P * numFilterColors P + c)
              (imgLoadModPosY P (om * P.modulesPerBlock + mi) + ((p / P.filterSize : ℕ) : ℤ))
              (imgLoadModPosX P (om * P.modulesPerBlock + mi) + ((p % P.filterSize : ℕ) : ℤ))
              img
            * hidAt hidActs P f (om * P.modulesPerBlock + mi) img :=
          Finset.sum_congr rfl fun mi _ =>
            sum_tiles_eq K.preloadCases P.numImages hpc K.checkCaseBounds hccb
              (fun j => boundedImgAt images P
                  (f / numFiltersPerGroup P * numFilterColors P + c)
                  (imgLoadModPosY P (om * P.modulesPerBlock + mi) + ((p / P.filterSize : ℕ) : ℤ))
                  (imgLoadModPosX P (om * P.modulesPerBlock + mi) + ((p % P.filterSize : ℕ) : ℤ))
                  j
                * hidAt hidActs P f (om * P.modulesPerBlock + mi) j)
  unfold run outVal
  cases hs : K.scale with
  | false =>
      obtain ⟨h0, h1'⟩ := hscale hs
      rw [if_neg Bool.false_ne_true]
      rw [hprod, h0, h1', zero_mul, one_mul, zero_add]
  | true =>
      rw [if_pos rfl]
      have hidx : targetIdx K P
          (om * blocksPerModule K P + f / K.B_X)
          ((p / (K.B_Y * K.pixelsPerThread)) * (numFilterColors P / K.colorsPerThread)
            + c / K.colorsPerThread)
          (f % K.B_X) (p % (K.B_Y * K.pixelsPerThread) % K.B_Y)
          (c % K.colorsPerThread) (p % (K.B_Y * K.pixelsPerThread) / K.B_Y)
          = tgtIdx P om c p f := by
        unfold targetIdx tgtIdx
        rw [h1, h3, h5, h6]
        exact mc_target_decomp P.numFilters (filterPixels P) (numFilterColors P)
          K.B_X K.B_Y K.pixelsPerThread K.colorsPerThread om c p f
      rw [hidx, hprod]

end MC

/-- Offset recomposition for the few-colour kernel's pointer arithmetic. -/
theorem ck_target_decomp (nf fp nc BX BY ppt om c p f : ℕ) :
    om * nf * (fp * nc) + p / (BY * ppt) * BY * ppt * nf + BX * (f / BX)
      + p % (BY * ppt) % BY * nf + f % BX
      + p % (BY * ppt) / BY * BY * nf + c * (fp * nf)
    = ((om * nc + c) * fp + p) * nf + f := by
  calc om * nf * (fp * nc) + p / (BY * ppt) * BY * ppt * nf + BX * (f / BX)
        + p % (BY * ppt) % BY * nf + f % BX
        + p % (BY * ppt) / BY * BY * nf + c * (fp * nf)
      = ((om * nc + c) * fp
          + (p / (BY * ppt) * (BY * ppt)
            + (p % (BY * ppt) / BY * BY + p % (BY * ppt) % BY))) * nf
        + (BX * (f / BX) + f % BX) := by ring
    _ = ((om * nc + c) * fp + p) * nf + f := by
        rw [Nat.div_add_mod' (p % (BY * ppt)) BY,
          Nat.div_add_mod' p (BY * ppt), Nat.div_add_mod f BX]

namespace CK

/-- Correctness of `weight_acts_kernel2_color`, generic in its template
parameters, under the constraints its header comment documents and the
dispatcher guarantees (in particular this kernel is only dispatched with
`numGroups == 1` and `numColors == numImgColors`): at every in-range
logical coordinate, and for arbitrary initial shared-memory contents, the
value written is `scaleTargets * (old target) + scaleOutput * (reference
reduction)`. -/
theorem ck_run_eq (K : CKTmpl) (P : Params) (images hidActs targets : Buf) (sT sO : ℚ)
    (sh0 : ℕ → ℕ → ℚ) (om c p f : ℕ)
    (hpc : 0 < K.preloadCases)
    (hccb : K.checkCaseBounds = false → P.numImages % K.preloadCases = 0)
    (hscale : K.scale = false → sT = 0 ∧ sO = 1)
    (hBXnf : K.B_X ∣ P.numFilters)
    (hng1 : P.numGroups = 1) (hnc : K.numColors = P.numImgColors)
    (hc : c < K.numColors) (hp : p < filterPixels P) (hf : f < P.numFilters) :
    run K P images hidActs targets sT sO sh0 om c p f
      = sT * targets ((tgtIdx P om c p f : ℕ) : ℤ)
        + sO * refGrad images hidActs P om c p f := by
  have hfA : f / K.B_X < blocksPerModule K P := Nat.div_lt_div_of_lt_of_dvd hBXnf hf
  have hbpmpos : 0 < blocksPerModule K P := lt_of_le_of_lt (Nat.zero_le _) hfA
  have hnfc : numFilterColors P = K.numColors := by
    unfold numFilterColors
    rw [hng1, Nat.div_one, ← hnc]
  have hcol : f / numFiltersPerGroup P * numFilterColors P + c = c := by
    unfold numFiltersPerGroup
    rw [hng1, Nat.div_one, Nat.div_eq_of_lt hf, zero_mul, zero_add]
  have hbxmod : (om * blocksPerModule K P + f / K.B_X) % blocksPerModule K P
      = f / K.B_X := by
    rw [mul_comm om (blocksPerModule K P), Nat.mul_add_mod, Nat.mod_eq_of_lt hfA]
  have h1 : outputModuleIdx K P (om * blocksPerModule K P + f / K.B_X) = om := by
    unfold outputModuleIdx
    rw [mul_comm om (blocksPerModule K P), Nat.mul_add_div hbpmpos,
      Nat.div_eq_of_lt hfA, Nat.add_zero]
  have h2 : moduleIdx K P (om * blocksPerModule K P + f / K.B_X)
      = om * P.modulesPerBlock := by
    unfold moduleIdx
    rw [h1, mul_comm]
  have h3 : blockFilterIdx K P (om * blocksPerModule K P + f / K.B_X)
      = K.B_X * (f / K.B_X) := by
    unfold blockFilterIdx
    rw [hbxmod]
  have h8 : blockFilterIdx K P (om * blocksPerModule K P + f / K.B_X)
      + f % K.B_X = f := by
    rw [h3]
    exact Nat.div_add_mod f K.B_X
  have h9 : blockPixelOffset K P (p / (K.B_Y * K.pixelsPerThread))
      + (p % (K.B_Y * K.pixelsPerThread) % K.B_Y
        + p % (K.B_Y * K.pixelsPerThread) / K.B_Y * K.B_Y) = p := by
    unfold blockPixelOffset
    rw [Nat.mod_add_div' (p % (K.B_Y * K.pixelsPerThread)) K.B_Y, mul_assoc,
      Nat.div_add_mod' p (K.B_Y * K.pixelsPerThread)]
  have hprod : prod K P images hidActs sh0
      (om * blocksPerModule K P + f / K.B_X)
      (p / (K.B_Y * K.pixelsPerThread))
      (f % K.B_X) (p % (K.B_Y * K.pixelsPerThread) % K.B_Y)
      c (p % (K.B_Y * K.pixelsPerThread) / K.B_Y)
      = refGrad images hidActs P om c p f := by
    have href : refGrad images hidActs P om c p f
        = ∑ mi ∈ Finset.range P.modulesPerBlock, ∑ img ∈ Finset.range P.numImages,
            boundedImgAt images P c
              (imgLoadModPosY P (om * P.modulesPerBlock + mi) + ((p / P.filterSize : ℕ) : ℤ))
              (imgLoadModPosX P (om * P.modulesPerBlock + mi) + ((p % P.filterSize : ℕ) : ℤ))
              img
            * hidAt hidActs P f (om * P.modulesPerBlock + mi) img := by
      unfold refGrad
      simp only [hcol]
    rw [href]
    unfold prod
    calc ∑ k ∈ Finset.range (P.modulesPerBlock * numTiles P K.preloadCases),
          ∑ i ∈ Finset.range K.preloadCases,
            shImages K P images (p / (K.B_Y * K.pixelsPerThread))
              (moduleIdx K P (om * blocksPerModule K P + f / K.B_X)
                + k / numTiles P K.preloadCases)
              (K.preloadCases * (k % numTiles P K.preloadCases)) c
              (p % (K.B_Y * K.pixelsPerThread) % K.B_Y
                + p % (K.B_Y * K.pixelsPerThread) / K.B_Y * K.B_Y) i
            * shHidActs K P hidActs
              (om * blocksPerModule K P + f / K.B_X) sh0 (k + 1) (f % K.B_X) i
        = ∑ k ∈ Finset.range (P.modulesPerBlock * numTiles P K.preloadCases),
            (fun a b => ∑ i ∈ Finset.range K.preloadCases,
              if K.checkCaseBounds = false ∨ K.preloadCases * b + i < P.numImages then
                boundedImgAt images P c
                  (imgLoadModPosY P (om * P.modulesPerBlock + a) + ((p / P.filterSize : ℕ) : ℤ))
                  (imgLoadModPosX P (om * P.modulesPerBlock + a) + ((p % P.filterSize : ℕ) : ℤ))
                  (K.preloadCases * b + i)
                * hidAt hidActs P f (om * P.modulesPerBlock + a) (K.preloadCases * b + i)
              else 0)
            (k / numTiles P K.preloadCases) (k % numTiles P K.preloadCases) := by
          refine Finset.sum_congr rfl fun k _ => Finset.sum_congr rfl fun i _ => ?_
          by_cases hcond : (K.checkCaseBounds = false ∨
              K.preloadCases * (k % numTiles P K.preloadCases) + i < P.numImages)
          · have hhid : shHidActs K P hidActs
                (om * blocksPerModule K P + f / K.B_X) sh0 (k + 1) (f % K.B_X) i
                = hidAt hidActs P f
                  (om * P.modulesPerBlock + k / numTiles P K.preloadCases)
                  (K.preloadCases * (k % numTiles P K.preloadCases) + i) := by
              simp only [shHidActs]
              rw [if_pos hcond, h8, h2]
            have himg : shImages K P images (p / (K.B_Y * K.pixelsPerThread))
                (moduleIdx K P (om * blocksPerModule K P + f / K.B_X)
                  + k / numTiles P K.preloadCases)
                (K.preloadCases * (k % numTiles P K.preloadCases)) c
                (p % (K.B_Y * K.pixelsPerThread) % K.B_Y
                  + p % (K.B_Y * K.pixelsPerThread) / K.B_Y * K.B_Y) i
                = boundedImgAt images P c
                  (imgLoadModPosY P (om * P.modulesPerBlock + k / numTiles P K.preloadCases)
                    + ((p / P.filterSize : ℕ) : ℤ))
                  (imgLoadModPosX P (om * P.modulesPerBlock + k / numTiles P K.preloadCases)
                    + ((p % P.filterSize : ℕ) : ℤ))
                  (K.preloadCases * (k % numTiles P K.preloadCases) + i) := by
              unfold shImages
              rw [if_pos ⟨by rw [h9]; exact hp, hcond⟩, h9, h2]
            rw [hhid, himg, if_pos hcond]
          · have himg0 : shImages K P images (p / (K.B_Y * K.pixelsPerThread))
                (moduleIdx K P (om * blocksPerModule K P + f / K.B_X)
                  + k / numTiles P K.preloadCases)
                (K.preloadCases * (k % numTiles P K.preloadCases)) c
                (p % (K.B_Y * K.pixelsPerThread) % K.B_Y
                  + p % (K.B_Y * K.pixelsPerThread) / K.B_Y * K.B_Y) i = 0 := by
              unfold shImages
              rw [if_neg]
              intro hcontra
              exact hcond hcontra.2
            rw [himg0, zero_mul, if_neg hcond]
      _ = ∑ mi ∈ Finset.range P.modulesPerBlock, ∑ t ∈ Finset.range (numTiles P K.preloadCases),
            ∑ i ∈ Finset.range K.preloadCases,
              (if K.checkCaseBounds = false ∨ K.preloadCases * t + i < P.numImages then
                boundedImgAt images P c
                  (imgLoadModPosY P (om * P.modulesPerBlock + mi) + ((p / P.filterSize : ℕ) : ℤ))
                  (imgLoadModPosX P (om * P.modulesPerBlock + mi) + ((p % P.filterSize : ℕ) : ℤ))
                  (K.preloadCases * t + i)
                * hidAt hidActs P f (om * P.modulesPerBlock + mi) (K.preloadCases * t + i)
              else 0) :=
          sum_range_mul_divmod P.modulesPerBlock (numTiles P K.preloadCases)
            (fun a b => ∑ i ∈ Finset.range K.preloadCases,
              if K.checkCaseBounds = false ∨ K.preloadCases * b + i < P.numImages then
                boundedImgAt images P c
                  (imgLoadModPosY P (om * P.modulesPerBlock + a) + ((p / P.filterSize : ℕ) : ℤ))
                  (imgLoadModPosX P (om * P.modulesPerBlock + a) + ((p % P.filterSize : ℕ) : ℤ))
                  (K.preloadCases * b + i)
                * hidAt hidActs P f (om * P.modulesPerBlock + a) (K.preloadCases * b + i)
              else 0)
      _ = ∑ mi ∈ Finset.range P.modulesPerBlock, ∑ img ∈ Finset.range P.numImages,
            boundedImgAt images P c
              (imgLoadModPosY P (om * P.modulesPerBlock + mi) + ((p / P.filterSize : ℕ) : ℤ))
              (imgLoadModPosX P (om * P.modulesPerBlock + mi) + ((p % P.filterSize : ℕ) : ℤ))
              img
            * hidAt hidActs P f (om * P.modulesPerBlock + mi) img :=
          Finset.sum_congr rfl fun mi _ =>
            sum_tiles_eq K.preloadCases P.numImages hpc K.checkCaseBounds hccb
              (fun j => boundedImgAt images P c
                  (imgLoadModPosY P (om * P.modulesPerBlock + mi) + ((p / P.filterSize : ℕ) : ℤ))
                  (imgLoadModPosX P (om * P.modulesPerBlock + mi) + ((p % P.filterSize : ℕ) : ℤ))
                  j
                * hidAt hidActs P f (om * P.modulesPerBlock + mi) j)
  unfold run outVal
  cases hs : K.scale with
  | false =>
      obtain ⟨h0, h1'⟩ := hscale hs
      rw [if_neg Bool.false_ne_true]
      rw [hprod, h0, h1', zero_mul, one_mul, zero_add]
  | true =>
      rw [if_pos rfl]
      have hidx : targetIdx K P
          (om * blocksPerModule K P + f / K.B_X)
          (p / (K.B_Y * K.pixelsPerThread))
          (f % K.B_X) (p % (K.B_Y * K.pixelsPerThread) % K.B_Y)
          c (p % (K.B_Y * K.pixelsPerThread) / K.B_Y)
          = tgtIdx P om c p f := by
        unfold targetIdx tgtIdx blockPixelOffset
        rw [h1, h3, hnfc]
        exact ck_target_decomp P.numFilters (filterPixels P) K.numColors
          K.B_X K.B_Y K.pixelsPerThread om c p f
      rw [hidx, hprod]

end CK

/-- Master correctness of the dispatcher: whenever a call succeeds, the
produced target holds — at every in-range logical coordinate, whichever
tiling variant was selected, and for arbitrary initial scratch contents —
the value `scaleTargets * (old target entry) + scaleOutput * (the direct
triple-loop reference reduction)`. -/
theorem convWeightActs_out_eq (images hidActs targets : Mat)
    (numModulesX filterSize : ℕ) (paddingStart : ℤ)
    (moduleStride numImgColors numGroups : ℕ) (scaleTargets scaleOutput : ℚ)
    (moduleSum0 : ℕ) (r : LaunchResult) (sh0 : ℕ → ℕ → ℚ) (om c p f : ℕ)
    (hng : 0 < numGroups) (hfs : filterSize ≤ 65536)
    (hr : convWeightActs images hidActs targets numModulesX filterSize paddingStart
      moduleStride numImgColors numGroups scaleTargets scaleOutput moduleSum0 = some r)
    (hc : c < numImgColors / numGroups) (hp : p < filterSize * filterSize)
    (hf : f < hidActs.rows / (numModulesX * numModulesX)) :
    r.out sh0 om c p f
      = scaleTargets * targets.data
          ((tgtIdx (mkParams images hidActs numModulesX filterSize paddingStart
            moduleStride numImgColors numGroups
            (moduleSumDefault numModulesX moduleSum0)) om c p f : ℕ) : ℤ)
        + scaleOutput * refGrad images.data hidActs.data
            (mkParams images hidActs numModulesX filterSize paddingStart moduleStride
              numImgColors numGroups (moduleSumDefault numModulesX moduleSum0)) om c p f := by
  by_cases hch : convWeightActsChecks images hidActs targets numModulesX filterSize
      paddingStart moduleStride numImgColors numGroups scaleTargets scaleOutput
      (moduleSumDefault numModulesX moduleSum0)
  · rw [convWeightActs, if_pos hch] at hr
    simp only [Option.some.injEq] at hr
    subst hr
    obtain ⟨hcore, _⟩ := hch
    obtain ⟨a1, a2, a3, a4, a5, a6, a7, a8, a9, a10, a11, a12,
      a13, a14, a15, a16, a17, a18, a19⟩ := hcore
    have hgd : numGroups ∣ hidActs.rows / (numModulesX * numModulesX) :=
      dvd_trans (dvd_mul_left numGroups 16) (Nat.dvd_of_mod_eq_zero a2)
    have h16nfpg : 16 ∣ hidActs.rows / (numModulesX * numModulesX) / numGroups := by
      obtain ⟨t, ht⟩ := Nat.dvd_of_mod_eq_zero a2
      have h' : hidActs.rows / (numModulesX * numModulesX) / numGroups = 16 * t := by
        rw [ht, show 16 * numGroups * t = numGroups * (16 * t) by ring,
          Nat.mul_div_cancel_left _ hng]
      rw [h']
      exact Dvd.intro t rfl
    show dispatchKernel images hidActs targets numModulesX filterSize paddingStart
      moduleStride numImgColors numGroups scaleTargets scaleOutput
      (moduleSumDefault numModulesX moduleSum0) sh0 om c p f = _
    unfold dispatchKernel
    by_cases h3 : 3 < numImgColors / numGroups
    · rw [if_pos h3]
      have hcd4 : 4 ∣ numImgColors / numGroups := by
        rcases a4 with hng1 | h4dvd
        · subst hng1
          rw [Nat.div_one] at h3 ⊢
          rcases a3 with habs | ⟨_, hor⟩
          · omega
          · rcases hor with hle | hmod
            · omega
            · exact Nat.dvd_of_mod_eq_zero hmod
        · exact Nat.dvd_of_mod_eq_zero h4dvd
      have hcd : (if numImgColors / numGroups % 8 = 0 then 8 else 4)
          ∣ numImgColors / numGroups := by
        split
        · next h8 => exact Nat.dvd_of_mod_eq_zero h8
        · exact hcd4
      by_cases h32 : hidActs.rows / (numModulesX * numModulesX) / numGroups % 32 = 0
      · rw [if_pos h32]
        apply MF.mf_run_eq
        · show 0 < (if hidActs.rows / (numModulesX * numModulesX) / numGroups % 64 = 0
            then 32 else 16)
          split <;> norm_num
        · norm_num
        · norm_num
        · intro h
          by_cases hm : images.cols % 32 = 0
          · exact hm
          · rw [if_neg hm] at h
            simp at h
        · intro h
          by_cases hq : scaleTargets = 0 ∧ scaleOutput = 1
          · exact hq
          · rw [if_neg hq] at h
            simp at h
        · show (if hidActs.rows / (numModulesX * numModulesX) / numGroups % 64 = 0
              then 32 else 16) * 2
            ∣ numFiltersPerGroup (mkParams images hidActs numModulesX filterSize
              paddingStart moduleStride numImgColors numGroups
              (moduleSumDefault numModulesX moduleSum0))
          split
          · next h64 =>
              rw [show (32 * 2 : ℕ) = 64 from rfl]
              exact Nat.dvd_of_mod_eq_zero h64
          · rw [show (16 * 2 : ℕ) = 32 from rfl]
            exact Nat.dvd_of_mod_eq_zero h32
        · exact hgd
        · exact hng
        · exact hcd
        · exact hc
        · exact hp
        · exact hf
      · rw [if_neg h32]
        apply MC.mc_run_eq
        · norm_num
        · intro h
          by_cases hm : images.cols % 32 = 0
          · exact hm
          · rw [if_neg hm] at h
            simp at h
        · intro h
          by_cases hq : scaleTargets = 0 ∧ scaleOutput = 1
          · exact hq
          · rw [if_neg hq] at h
            simp at h
        · show (if hidActs.rows / (numModulesX * numModulesX) / numGroups % 32 = 0
              then 32 else 16)
            ∣ numFiltersPerGroup (mkParams images hidActs numModulesX filterSize
              paddingStart moduleStride numImgColors numGroups
              (moduleSumDefault numModulesX moduleSum0))
          split
          · next habs => exact absurd habs h32
          · exact h16nfpg.trans (dvd_refl _) |>.trans (dvd_refl _) |> fun h' =>
              dvd_trans (by norm_num : (16:ℕ) ∣ 16) h'
        · exact hgd
        · exact hng
        · exact hcd
        · exact hfs
        · exact hc
        · exact hp
        · exact hf
    · rw [if_neg h3]
      have hng1 : numGroups = 1 := by
        rcases a18 with habs | h1
        · exact absurd habs h3
        · exact h1
      have h16nf : 16 ∣ hidActs.rows / (numModulesX * numModulesX) := by
        have := a2
        rw [hng1] at this
        norm_num at this
        exact Nat.dvd_of_mod_eq_zero this
      apply CK.ck_run_eq
      · norm_num
      · intro h
        by_cases hm : images.cols % 32 = 0
        · exact hm
        · rw [if_neg hm] at h
          simp at h
      · intro h
        by_cases hq : scaleTargets = 0 ∧ scaleOutput = 1
        · exact hq
        · rw [if_neg hq] at h
          simp at h
      · show (if hidActs.rows / (numModulesX * numModulesX) % 32 = 0 then 32 else 16)
          ∣ hidActs.rows / (numModulesX * numModulesX)
        split
        · next h32' => exact Nat.dvd_of_mod_eq_zero h32'
        · exact h16nf
      · exact hng1
      · rfl
      · show c < numImgColors
        rw [hng1, Nat.div_one] at hc
        exact hc
      · exact hp
      · exact hf
  · rw [convWeightActs, if_neg hch] at hr
    exact absurd hr (by simp)

/-! ## Layer-graph propagation protocol

Modelled from the spec: the repository snapshot contains only the class
declaration `src/include/layer.cuh` (fields `_prev`, `_next`,
`_rcvdFInputs`, `_rcvdBInputs`, `_numGradProducersNext`, methods
`fprop`/`bprop`/`fpropNext`/`reset`); the method bodies (`layer.cu`) are
missing.  Following spec §3/§4.3: a delivery from a neighbour increments
the receiving layer's counter; the layer's own computation runs exactly
when the counter reaches its requirement, at which point the layer
immediately queues one notification to each outgoing neighbour.  One
protocol covers both passes: forward (requirement = `predecessors.size()`,
notifications along successor lists, data layers fired by the graph) and
backward (requirement = `numGradProducersNext`, notifications from
gradient-producing layers to their predecessors, cost layers fired by the
graph).  Delivery order is left nondeterministic, which subsumes the
depth-first order of the C++ call graph. -/

namespace LayerGraph

/-- Notifications produced by one sender, counted per receiver. -/
theorem countP_map_pairs {n : ℕ} (v w : Fin n) (l : List (Fin n)) :
    (l.map (fun w' => (w, w'))).countP (fun e => e.2 == v) = l.count v := by
  rw [List.countP_map]
  rfl

/-- Initial pending notifications, counted per receiver. -/
theorem countP_bind_pairs {n : ℕ} (v : Fin n) (out : Fin n → List (Fin n))
    (l : List (Fin n)) :
    (l.flatMap (fun u => (out u).map (fun w => (u, w)))).countP (fun e => e.2 == v)
      = (l.map (fun u => (out u).count v)).sum := by
  induction l with
  | nil => simp
  | cons u us ih =>
      rw [List.flatMap_cons, List.countP_append, countP_map_pairs, List.map_cons,
        List.sum_cons, ih, Nat.add_comm]

/-- The initial state satisfies the invariant. -/
theorem inv_init {n : ℕ} (out : Fin n → List (Fin n)) (indeg : Fin n → ℕ)
    (sources : List (Fin n))
    (hdual : ∀ v, indeg v = ∑ u : Fin n, (out u).count v)
    (hsrc : ∀ v, v ∈ sources ↔ indeg v = 0) (hsnd : sources.Nodup) :
    Inv out indeg (initState out sources) := by
  have hedge0 : ∀ u v : Fin n, v ∈ out u → indeg v ≠ 0 := by
    intro u v huv h0
    have hsum : ∑ u' : Fin n, (out u').count v = 0 := by rw [← hdual v, h0]
    have hu : (out u).count v = 0 :=
      (Finset.sum_eq_zero_iff.mp hsum) u (Finset.mem_univ u)
    rw [List.count_eq_zero] at hu
    exact hu huv
  refine ⟨?_, ?_, hsnd, ?_, ?_, ?_⟩
  · intro v
    exact Nat.zero_le _
  · intro v
    show v ∈ sources ↔ 0 = indeg v
    rw [hsrc v, eq_comm]
  · intro e he
    show e.1 ∈ sources ∧ e.2 ∈ out e.1
    have he' : e ∈ sources.flatMap (fun v => (out v).map (fun w => (v, w))) := he
    rw [List.mem_flatMap] at he'
    obtain ⟨u, hu, hmem⟩ := he'
    rw [List.mem_map] at hmem
    obtain ⟨w, hw, rfl⟩ := hmem
    exact ⟨hu, hw⟩
  · intro v
    show 0 + _ = _
    rw [Nat.zero_add]
    exact countP_bind_pairs v out sources
  · intro u v huv hv
    exact absurd ((hsrc v).mp hv) (hedge0 u v huv)

/-- When a notification completes a layer's counter, every in-neighbour of
that layer has already executed. -/
theorem preds_executed {n : ℕ} (out : Fin n → List (Fin n)) (indeg : Fin n → ℕ)
    (hdual : ∀ v, indeg v = ∑ u : Fin n, (out u).count v)
    (s : PState n) (inv : Inv out indeg s) (e : Fin n × Fin n)
    (he : e ∈ s.pending) (heq : s.rcvd e.2 + 1 = indeg e.2) :
    ∀ u, e.2 ∈ out u → u ∈ s.trace := by
  intro u hu
  by_contra hnot
  have hpos : 0 < s.pending.countP (fun e' => e'.2 == e.2) :=
    List.countP_pos.mpr ⟨e, he, by simp⟩
  have hcount := inv.count e.2
  have hsub : s.trace.toFinset ⊆ Finset.univ.erase u := by
    intro x hx
    rw [Finset.mem_erase]
    exact ⟨fun hxu => hnot (hxu ▸ List.mem_toFinset.mp hx), Finset.mem_univ x⟩
  have hle1 : (s.trace.map (fun u' => (out u').count e.2)).sum
      ≤ ∑ x ∈ Finset.univ.erase u, (out x).count e.2 := by
    rw [← List.sum_toFinset _ inv.nodup]
    exact Finset.sum_le_sum_of_subset hsub
  have hle2 : ∑ x ∈ Finset.univ.erase u, (out x).count e.2 + (out u).count e.2
      = indeg e.2 := by
    rw [hdual e.2]
    exact Finset.sum_erase_add _ _ (Finset.mem_univ u)
  have hcnt_pos : 0 < (out u).count e.2 := List.count_pos_iff_mem.mpr hu
  omega

/-- Counting with a predicate after erasing one occurrence of a present
element. -/
theorem countP_erase {α : Type} [BEq α] [LawfulBEq α] (p : α → Bool) (l : List α)
    (e : α) (he : e ∈ l) :
    l.countP p = (l.erase e).countP p + (if p e then 1 else 0) := by
  induction l with
  | nil => cases he
  | cons b t ih =>
      rw [List.erase_cons]
      by_cases hbe : b = e
      · subst hbe
        rw [if_pos (by simp), List.countP_cons]
      · rw [if_neg (by simp [hbe]), List.countP_cons, List.countP_cons]
        have he' : e ∈ t := by
          rcases List.mem_cons.mp he with h | h
          · exact absurd h.symm hbe
          · exact h
        rw [ih he']
        omega

/-- Each protocol step preserves the invariant. -/
theorem inv_step {n : ℕ} (out : Fin n → List (Fin n)) (indeg : Fin n → ℕ)
    (hdual : ∀ v, indeg v = ∑ u : Fin n, (out u).count v)
    (s s' : PState n) (inv : Inv out indeg s) (hstep : PStep out indeg s s') :
    Inv out indeg s' := by
  cases hstep with
  | deliver e he hlt =>
      refine ⟨?_, ?_, inv.nodup, ?_, ?_, ?_⟩
      · intro v
        show Function.update s.rcvd e.2 (s.rcvd e.2 + 1) v ≤ indeg v
        by_cases hv : v = e.2
        · subst hv
          rw [Function.update_same]
          omega
        · rw [Function.update_noteq hv]
          exact inv.le v
      · intro v
        show v ∈ s.trace ↔ Function.update s.rcvd e.2 (s.rcvd e.2 + 1) v = indeg v
        by_cases hv : v = e.2
        · subst hv
          rw [Function.update_same]
          constructor
          · intro hmem
            have := (inv.mem_iff e.2).mp hmem
            omega
          · intro h
            omega
        · rw [Function.update_noteq hv]
          exact inv.mem_iff v
      · intro e' he'
        exact inv.pend e' (List.mem_of_mem_erase he')
      · intro v
        have hperm : s.pending.countP (fun x => x.2 == v)
            = (s.pending.erase e).countP (fun x => x.2 == v)
              + (if (e.2 == v) then 1 else 0) :=
          countP_erase (fun x => x.2 == v) s.pending e he
        show Function.update s.rcvd e.2 (s.rcvd e.2 + 1) v
            + (s.pending.erase e).countP (fun x => x.2 == v)
            = (s.trace.map (fun u => (out u).count v)).sum
        by_cases hv : v = e.2
        · subst hv
          rw [Function.update_same]
          have hc := inv.count e.2
          simp only [beq_self_eq_true, if_true] at hperm
          omega
        · rw [Function.update_noteq hv]
          have hc := inv.count v
          have hne : (e.2 == v) = false := beq_eq_false_iff_ne.mpr (fun h => hv h.symm)
          rw [hne] at hperm
          simp only [Bool.false_eq_true, if_false, Nat.add_zero] at hperm
          omega
      · intro u v huv hv
        exact inv.order u v huv hv
  | fire e he heq =>
      have hw_not : e.2 ∉ s.trace := by
        intro hmem
        have := (inv.mem_iff e.2).mp hmem
        omega
      have hpreds := preds_executed out indeg hdual s inv e he heq
      refine ⟨?_, ?_, ?_, ?_, ?_, ?_⟩
      · intro v
        show Function.update s.rcvd e.2 (s.rcvd e.2 + 1) v ≤ indeg v
        by_cases hv : v = e.2
        · subst hv
          rw [Function.update_same]
          omega
        · rw [Function.update_noteq hv]
          exact inv.le v
      · intro v
        show v ∈ s.trace ++ [e.2] ↔ Function.update s.rcvd e.2 (s.rcvd e.2 + 1) v = indeg v
        by_cases hv : v = e.2
        · subst hv
          rw [Function.update_same, List.mem_append, List.mem_singleton]
          constructor
          · intro _
            exact heq
          · intro _
            right
            rfl
        · rw [Function.update_noteq hv, List.mem_append, List.mem_singleton]
          constructor
          · rintro (h | h)
            · exact (inv.mem_iff v).mp h
            · exact absurd h hv
          · intro h
            exact Or.inl ((inv.mem_iff v).mpr h)
      · show (s.trace ++ [e.2]).Nodup
        rw [List.nodup_append]
        refine ⟨inv.nodup, List.nodup_singleton _, ?_⟩
        intro a ha hb
        rw [List.mem_singleton] at hb
        subst hb
        exact hw_not ha
      · intro e' he'
        rw [List.mem_append] at he'
        rcases he' with h | h
        · obtain ⟨h1, h2⟩ := inv.pend e' (List.mem_of_mem_erase h)
          exact ⟨List.mem_append_left _ h1, h2⟩
        · rw [List.mem_map] at h
          obtain ⟨w, hw, rfl⟩ := h
          exact ⟨List.mem_append_right _ (List.mem_singleton_self _), hw⟩
      · intro v
        have hperm : s.pending.countP (fun x => x.2 == v)
            = (s.pending.erase e).countP (fun x => x.2 == v)
              + (if (e.2 == v) then 1 else 0) :=
          countP_erase (fun x => x.2 == v) s.pending e he
        show Function.update s.rcvd e.2 (s.rcvd e.2 + 1) v
            + (s.pending.erase e ++ (out e.2).map (fun w => (e.2, w))).countP
                (fun x => x.2 == v)
            = ((s.trace ++ [e.2]).map (fun u => (out u).count v)).sum
        rw [List.countP_append, countP_map_pairs, List.map_append, List.sum_append]
        simp only [List.map_cons, List.map_nil, List.sum_cons, List.sum_nil]
        by_cases hv : v = e.2
        · subst hv
          rw [Function.update_same]
          have hc := inv.count e.2
          simp only [beq_self_eq_true, if_true] at hperm
          omega
        · rw [Function.update_noteq hv]
          have hc := inv.count v
          have hne : (e.2 == v) = false := beq_eq_false_iff_ne.mpr (fun h => hv h.symm)
          rw [hne] at hperm
          simp only [Bool.false_eq_true, if_false, Nat.add_zero] at hperm
          omega
      · intro u v huv hv
        rw [List.mem_append, List.mem_singleton] at hv
        rcases hv with h | h
        · obtain ⟨hu, hidx⟩ := inv.order u v huv h
          refine ⟨List.mem_append_left _ hu, ?_⟩
          rw [List.indexOf_append_of_mem hu, List.indexOf_append_of_mem h]
          exact hidx
        · subst h
          have hu := hpreds u huv
          refine ⟨List.mem_append_left _ hu, ?_⟩
          rw [List.indexOf_append_of_mem hu, List.indexOf_append_of_not_mem hw_not]
          have hlt : s.trace.indexOf u < s.trace.length := List.indexOf_lt_length.mpr hu
          have h0 : List.indexOf e.2 [e.2] = 0 := List.indexOf_cons_self e.2 []
          omega

/-- The invariant holds in every state reachable from the initial state. -/
theorem inv_reach {n : ℕ} (out : Fin n → List (Fin n)) (indeg : Fin n → ℕ)
    (hdual : ∀ v, indeg v = ∑ u : Fin n, (out u).count v)
    (s0 s : PState n) (hinv : Inv out indeg s0) (h : Reaches out indeg s0 s) :
    Inv out indeg s := by
  induction h with
  | refl => exact hinv
  | tail _ hstep ih => exact inv_step out indeg hdual _ _ ih hstep

/-- Protocol correctness on an arbitrary DAG: in any state reachable from
the start of a pass in which no notification remains pending, every layer
has executed exactly once, and every layer executed strictly after each of
its in-neighbours. -/
theorem protocol_correct {n : ℕ} (out : Fin n → List (Fin n)) (indeg : Fin n → ℕ)
    (sources : List (Fin n)) (rank : Fin n → ℕ)
    (hdual : ∀ v, indeg v = ∑ u : Fin n, (out u).count v)
    (hrank : ∀ u v, v ∈ out u → rank u < rank v)
    (hsrc : ∀ v, v ∈ sources ↔ indeg v = 0) (hsnd : sources.Nodup)
    (s : PState n) (hreach : Reaches out indeg (initState out sources) s)
    (hterm : s.pending = []) :
    (∀ v, s.trace.count v = 1)
      ∧ (∀ u v, v ∈ out u → s.trace.indexOf u < s.trace.indexOf v) := by
  have inv : Inv out indeg s :=
    inv_reach out indeg hdual _ s (inv_init out indeg sources hdual hsrc hsnd) hreach
  have hall : ∀ v, v ∈ s.trace := by
    suffices h : ∀ N, ∀ v, rank v < N → v ∈ s.trace by
      intro v
      exact h (rank v + 1) v (Nat.lt_succ_self _)
    intro N
    induction N with
    | zero => intro v hv; omega
    | succ N ih =>
        intro v hv
        have hin : ∀ u, v ∈ out u → u ∈ s.trace := fun u hu =>
          ih u (by have := hrank u v hu; omega)
        have hsum : (s.trace.map (fun u => (out u).count v)).sum = indeg v := by
          rw [hdual v, ← List.sum_toFinset _ inv.nodup]
          refine (Finset.sum_subset (Finset.subset_univ _) ?_).symm.symm
          intro x _ hx
          rw [List.mem_toFinset] at hx
          by_contra hcnt
          exact hx (hin x (List.count_pos_iff_mem.mp (Nat.pos_of_ne_zero hcnt)))
        have hrv : s.rcvd v = indeg v := by
          have hc := inv.count v
          rw [hterm] at hc
          simp only [List.countP_nil, Nat.add_zero] at hc
          omega
        exact (inv.mem_iff v).mpr hrv
  constructor
  · intro v
    exact List.count_eq_one_of_mem inv.nodup (hall v)
  · intro u v huv
    exact (inv.order u v huv (hall v)).2

end LayerGraph

/-! ## Claim theorems -/

/-- Recovering the logical coordinates `(om, c, p, f)` from the contiguous
target offset `((om*nfc + c)*fp + p)*nf + f`. -/
theorem tgt_decode (nfc fp nf om c p f : ℕ) (hc : c < nfc) (hp : p < fp)
    (hf : f < nf) :
    (((om * nfc + c) * fp + p) * nf + f) / nf / (nfc * fp) = om
    ∧ (((om * nfc + c) * fp + p) * nf + f) / nf % (nfc * fp) / fp = c
    ∧ (((om * nfc + c) * fp + p) * nf + f) / nf % fp = p
    ∧ (((om * nfc + c) * fp + p) * nf + f) % nf = f := by
  have hnf : 0 < nf := by omega
  have hfp : 0 < fp := by omega
  have hrow : (((om * nfc + c) * fp + p) * nf + f) / nf = (om * nfc + c) * fp + p := by
    rw [mul_comm ((om * nfc + c) * fp + p) nf, Nat.mul_add_div hnf,
      Nat.div_eq_of_lt hf, Nat.add_zero]
  have hb : c * fp + p < nfc * fp := by
    calc c * fp + p < c * fp + fp := by omega
      _ = (c + 1) * fp := by ring
      _ ≤ nfc * fp := Nat.mul_le_mul_right fp (by omega)
  have hsplit : (om * nfc + c) * fp + p = nfc * fp * om + (c * fp + p) := by ring
  refine ⟨?_, ?_, ?_, ?_⟩
  · rw [hrow, hsplit, Nat.mul_add_div (Nat.mul_pos (by omega) hfp),
      Nat.div_eq_of_lt hb, Nat.add_zero]
  · rw [hrow, hsplit, Nat.mul_add_mod, Nat.mod_eq_of_lt hb, mul_comm c fp,
      Nat.mul_add_div hfp, Nat.div_eq_of_lt hp, Nat.add_zero]
  · rw [hrow, mul_comm (om * nfc + c) fp, Nat.mul_add_mod, Nat.mod_eq_of_lt hp]
  · rw [mul_comm ((om * nfc + c) * fp + p) nf, Nat.mul_add_mod, Nat.mod_eq_of_lt hf]

/-- `linearizeOut` is a left inverse of `tgtIdx` at in-range coordinates. -/
theorem linearize_tgtIdx (nfc fp nf : ℕ) (g : ℕ → ℕ → ℕ → ℕ → ℚ) (P : Params)
    (om c p f : ℕ) (hnfc : numFilterColors P = nfc) (hfp : filterPixels P = fp)
    (hnf : P.numFilters = nf) (hc : c < nfc) (hp : p < fp) (hf : f < nf) :
    linearizeOut nfc fp nf g ((tgtIdx P om c p f : ℕ) : ℤ) = g om c p f := by
  obtain ⟨h1, h2, h3, h4⟩ := tgt_decode nfc fp nf om c p f hc hp hf
  unfold linearizeOut
  rw [if_pos (Int.natCast_nonneg _), Int.toNat_natCast]
  unfold tgtIdx
  rw [hnfc, hfp, hnf, h1, h2, h3, h4]

/-- `checksCore` constrains the target matrix only through its transposition
and contiguity flags. -/
theorem checksCore_retarget (images hidActs t t2 : Mat) (numModulesX filterSize : ℕ)
    (paddingStart : ℤ) (moduleStride numImgColors numGroups moduleSum : ℕ)
    (h : checksCore images hidActs t numModulesX filterSize paddingStart moduleStride
      numImgColors numGroups moduleSum)
    (ht : t2.trans = false) (hcg : t2.contig = true) :
    checksCore images hidActs t2 numModulesX filterSize paddingStart moduleStride
      numImgColors numGroups moduleSum := by
  obtain ⟨a1, a2, a3, a4, a5, a6, a7, a8, a9, a10, a11, a12, a13, a14, a15, _, _,
    a18, a19⟩ := h
  exact ⟨a1, a2, a3, a4, a5, a6, a7, a8, a9, a10, a11, a12, a13, a14, a15, ht, hcg,
    a18, a19⟩

/-- `checksCore` constrains `moduleSum` only through the divisibility
`numModules % moduleSum == 0`. -/
theorem checksCore_moduleSum (images hidActs t : Mat) (numModulesX filterSize : ℕ)
    (paddingStart : ℤ) (moduleStride numImgColors numGroups msA msB : ℕ)
    (h : checksCore images hidActs t numModulesX filterSize paddingStart moduleStride
      numImgColors numGroups msA)
    (hB : numModulesX * numModulesX % msB = 0) :
    checksCore images hidActs t numModulesX filterSize paddingStart moduleStride
      numImgColors numGroups msB := by
  obtain ⟨a1, a2, a3, a4, a5, a6, _, a8, a9, a10, a11, a12, a13, a14, a15, a16, a17,
    a18, a19⟩ := h
  exact ⟨a1, a2, a3, a4, a5, a6, hB, a8, a9, a10, a11, a12, a13, a14, a15, a16, a17,
    a18, a19⟩

/-- C1: at every in-range logical coordinate, and under each variant's own
dispatch preconditions (any bounds-checked or unchecked instantiation, any
scale flag consistent with the scale factors), the many-filter, many-colour
and few-colour tiling variants all produce the same value, namely
`scaleTargets * (prior target entry) + scaleOutput * (the direct triple-loop
reference reduction over folded modules and images)`. -/
theorem claim_C1 (P : Params) (images hidActs targets : Buf) (sT sO : ℚ)
    (sh0 sh1 sh2 : ℕ → ℕ → ℚ) (om c p f : ℕ)
    (K1 : MFTmpl) (K2 : MCTmpl) (K3 : CKTmpl)
    (h1BX : 0 < K1.B_X) (h1fpt : 0 < K1.filtersPerThread) (h1pc : 0 < K1.preloadCases)
    (h1ccb : K1.checkCaseBounds = false → P.numImages % K1.preloadCases = 0)
    (h1scale : K1.scale = false → sT = 0 ∧ sO = 1)
    (h1fd : (K1.B_X * K1.filtersPerThread) ∣ numFiltersPerGroup P)
    (h1cd : K1.colorsPerThread ∣ numFilterColors P)
    (h2pc : 0 < K2.preloadCases)
    (h2ccb : K2.checkCaseBounds = false → P.numImages % K2.preloadCases = 0)
    (h2scale : K2.scale = false → sT = 0 ∧ sO = 1)
    (h2fd : K2.B_X ∣ numFiltersPerGroup P)
    (h2cd : K2.colorsPerThread ∣ numFilterColors P)
    (h3pc : 0 < K3.preloadCases)
    (h3ccb : K3.checkCaseBounds = false → P.numImages % K3.preloadCases = 0)
    (h3scale : K3.scale = false → sT = 0 ∧ sO = 1)
    (h3fd : K3.B_X ∣ P.numFilters)
    (h3nc : K3.numColors = P.numImgColors)
    (hng1 : P.numGroups = 1) (hfs : P.filterSize ≤ 65536)
    (hc : c < numFilterColors P) (hp : p < filterPixels P) (hf : f < P.numFilters) :
    MF.run K1 P images hidActs targets sT sO sh0 om c p f
        = sT * targets ((tgtIdx P om c p f : ℕ) : ℤ)
          + sO * refGrad images hidActs P om c p f
    ∧ MC.run K2 P images hidActs targets sT sO sh1 om c p f
        = sT * targets ((tgtIdx P om c p f : ℕ) : ℤ)
          + sO * refGrad images hidActs P om c p f
    ∧ CK.run K3 P images hidActs targets sT sO sh2 om c p f
        = sT * targets ((tgtIdx P om c p f : ℕ) : ℤ)
          + sO * refGrad images hidActs P om c p f := by
  have hng : 0 < P.numGroups := by rw [hng1]; exact Nat.one_pos
  have hgd : P.numGroups ∣ P.numFilters := by rw [hng1]; exact one_dvd _
  have hcK : c < K3.numColors := by
    have h := hc
    unfold numFilterColors at h
    rw [hng1, Nat.div_one] at h
    rw [h3nc]
    exact h
  exact ⟨MF.mf_run_eq K1 P images hidActs targets sT sO sh0 om c p f h1BX h1fpt h1pc
      h1ccb h1scale h1fd hgd hng h1cd hc hp hf,
    MC.mc_run_eq K2 P images hidActs targets sT sO sh1 om c p f h2pc h2ccb h2scale
      h2fd hgd hng h2cd hfs hc hp hf,
    CK.ck_run_eq K3 P images hidActs targets sT sO sh2 om c p f h3pc h3ccb h3scale
      h3fd hng1 h3nc hcK hp hf⟩

/-- C1 at the demo geometry: the three kernels, at template instantiations the
dispatcher can select, agree with the blended reference on concrete buffers. -/
theorem claim_C1_witness :
    MF.run ⟨4, 32, 2, 4, 32, false, false⟩ demoP (fun _ => 0) (fun _ => 0)
        (fun _ => 0) 0 1 (fun _ _ => 0) 0 0 0 0
        = 0 * (fun _ => (0 : ℚ)) ((tgtIdx demoP 0 0 0 0 : ℕ) : ℤ)
          + 1 * refGrad (fun _ => 0) (fun _ => 0) demoP 0 0 0 0
    ∧ MC.run ⟨8, 16, 2, 4, 32, false, false⟩ demoP (fun _ => 0) (fun _ => 0)
        (fun _ => 0) 0 1 (fun _ _ => 0) 0 0 0 0
        = 0 * (fun _ => (0 : ℚ)) ((tgtIdx demoP 0 0 0 0 : ℕ) : ℤ)
          + 1 * refGrad (fun _ => 0) (fun _ => 0) demoP 0 0 0 0
    ∧ CK.run ⟨8, 16, 2, 32, 4, false, false⟩ demoP (fun _ => 0) (fun _ => 0)
        (fun _ => 0) 0 1 (fun _ _ => 0) 0 0 0 0
        = 0 * (fun _ => (0 : ℚ)) ((tgtIdx demoP 0 0 0 0 : ℕ) : ℤ)
          + 1 * refGrad (fun _ => 0) (fun _ => 0) demoP 0 0 0 0 :=
  claim_C1 demoP (fun _ => 0) (fun _ => 0) (fun _ => 0) 0 1 (fun _ _ => 0)
    (fun _ _ => 0) (fun _ _ => 0) 0 0 0 0 ⟨4, 32, 2, 4, 32, false, false⟩
    ⟨8, 16, 2, 4, 32, false, false⟩ ⟨8, 16, 2, 32, 4, false, false⟩
    (by decide) (by decide) (by decide) (fun _ => by decide)
    (fun _ => ⟨rfl, rfl⟩) ⟨1, by decide⟩ ⟨1, by decide⟩
    (by decide) (fun _ => by decide) (fun _ => ⟨rfl, rfl⟩) ⟨4, by decide⟩
    ⟨1, by decide⟩
    (by decide) (fun _ => by decide) (fun _ => ⟨rfl, rfl⟩) ⟨4, by decide⟩
    (by decide) (by decide) (by decide) (by decide) (by decide) (by decide)

/-- C2: on an arbitrary DAG of layers — mutually consistent `_prev`/`_next`
lists, acyclicity witnessed by a rank function — any completed forward pass
runs each layer's forward computation exactly once and strictly after every
predecessor's, and any completed backward pass runs each layer's backward
computation exactly once and strictly after every gradient-producing
successor's. -/
theorem claim_C2 {n : ℕ} (G : LayerGraph.Net n) (rank : Fin n → ℕ)
    (fsources bsources : List (Fin n)) (sF sB : LayerGraph.PState n)
    (hmem : ∀ u v, u ∈ G.preds v ↔ v ∈ G.succs u)
    (hrank : ∀ u v, v ∈ G.succs u → rank u < rank v)
    (hfdual : ∀ v, LayerGraph.fwdIndeg G v
      = ∑ u : Fin n, (LayerGraph.fwdOut G u).count v)
    (hbdual : ∀ v, LayerGraph.bwdIndeg G v
      = ∑ u : Fin n, (LayerGraph.bwdOut G u).count v)
    (hfsrc : ∀ v, v ∈ fsources ↔ LayerGraph.fwdIndeg G v = 0)
    (hfsnd : fsources.Nodup)
    (hbsrc : ∀ v, v ∈ bsources ↔ LayerGraph.bwdIndeg G v = 0)
    (hbsnd : bsources.Nodup)
    (hfr : LayerGraph.Reaches (LayerGraph.fwdOut G) (LayerGraph.fwdIndeg G)
      (LayerGraph.initState (LayerGraph.fwdOut G) fsources) sF)
    (hft : sF.pending = [])
    (hbr : LayerGraph.Reaches (LayerGraph.bwdOut G) (LayerGraph.bwdIndeg G)
      (LayerGraph.initState (LayerGraph.bwdOut G) bsources) sB)
    (hbt : sB.pending = []) :
    ((∀ v, sF.trace.count v = 1)
      ∧ ∀ u v, u ∈ G.preds v → sF.trace.indexOf u < sF.trace.indexOf v)
    ∧ (∀ v, sB.trace.count v = 1)
      ∧ ∀ u v, v ∈ G.succs u → G.gradProducer v = true →
          sB.trace.indexOf v < sB.trace.indexOf u := by
  have hFwd := LayerGraph.protocol_correct (LayerGraph.fwdOut G)
    (LayerGraph.fwdIndeg G) fsources rank hfdual hrank hfsrc hfsnd sF hfr hft
  have hbrank : ∀ u v, v ∈ LayerGraph.bwdOut G u →
      Finset.univ.sup rank + 1 - rank u < Finset.univ.sup rank + 1 - rank v := by
    intro u v hv
    unfold LayerGraph.bwdOut at hv
    by_cases hgp : G.gradProducer u = true
    · rw [if_pos hgp] at hv
      have husucc : u ∈ G.succs v := (hmem v u).mp hv
      have h1 := hrank v u husucc
      have h2 : rank u ≤ Finset.univ.sup rank := Finset.le_sup (Finset.mem_univ u)
      omega
    · rw [if_neg hgp] at hv
      simp at hv
  have hBwd := LayerGraph.protocol_correct (LayerGraph.bwdOut G)
    (LayerGraph.bwdIndeg G) bsources (fun v => Finset.univ.sup rank + 1 - rank v)
    hbdual hbrank hbsrc hbsnd sB hbr hbt
  refine ⟨⟨hFwd.1, ?_⟩, hBwd.1, ?_⟩
  · intro u v hpred
    exact hFwd.2 u v ((hmem u v).mp hpred)
  · intro u v hsucc hgp
    have hpred : u ∈ G.preds v := (hmem u v).mpr hsucc
    have hout : u ∈ LayerGraph.bwdOut G v := by
      unfold LayerGraph.bwdOut
      rw [if_pos hgp]
      exact hpred
    exact hBwd.2 v u hout

/-- C2 on the two-layer chain: the forward pass executes 0 then 1, the
backward pass 1 then 0, each exactly once and in dependency order. -/
theorem claim_C2_witness :
    ((∀ v, demoFwdFinal.trace.count v = 1)
      ∧ ∀ u v, u ∈ demoNet.preds v →
          demoFwdFinal.trace.indexOf u < demoFwdFinal.trace.indexOf v)
    ∧ (∀ v, demoBwdFinal.trace.count v = 1)
      ∧ ∀ u v, v ∈ demoNet.succs u → demoNet.gradProducer v = true →
          demoBwdFinal.trace.indexOf v < demoBwdFinal.trace.indexOf u :=
  claim_C2 demoNet (fun v => v.val) [0] [1] demoFwdFinal demoBwdFinal
    (by decide) (by decide) (by decide) (by decide) (by decide) (by decide)
    (by decide) (by decide)
    (Relation.ReflTransGen.single
      (LayerGraph.PStep.fire _ (0, 1) (by decide) (by decide)))
    rfl
    (Relation.ReflTransGen.single
      (LayerGraph.PStep.fire _ (1, 0) (by decide) (by decide)))
    rfl

/-- A call whose checks pass launches and returns the `launch` record. -/
theorem convWeightActs_some (images hidActs targets : Mat)
    (numModulesX filterSize : ℕ) (paddingStart : ℤ)
    (moduleStride numImgColors numGroups : ℕ) (scaleTargets scaleOutput : ℚ)
    (moduleSum0 : ℕ)
    (hch : convWeightActsChecks images hidActs targets numModulesX filterSize
      paddingStart moduleStride numImgColors numGroups scaleTargets scaleOutput
      (moduleSumDefault numModulesX moduleSum0)) :
    convWeightActs images hidActs targets numModulesX filterSize paddingStart
        moduleStride numImgColors numGroups scaleTargets scaleOutput moduleSum0
      = some (launch images hidActs targets numModulesX filterSize paddingStart
          moduleStride numImgColors numGroups scaleTargets scaleOutput
          moduleSum0) := by
  rw [convWeightActs, if_pos hch]
  rfl

/-- C3: with `scaleTargets = 0, scaleOutput = 1` a call that passes the core
asserts launches whatever the target's current shape, resizes the target to
`(numModules/moduleSum) * numFilterColors * filterPixels` rows by
`numFilters` columns, and never reads the prior target contents (two calls
differing only in the target matrix and scratch contents produce identical
entries); with any other scale pair the call aborts unless the target
already has exactly that shape, and then blends `scaleTargets * old +
scaleOutput * gradient`. -/
theorem claim_C3 (images hidActs t1 t2 : Mat) (numModulesX filterSize : ℕ)
    (paddingStart : ℤ) (moduleStride numImgColors numGroups moduleSum0 : ℕ)
    (sh0 sh1 : ℕ → ℕ → ℚ) (om c p f : ℕ)
    (hng : 0 < numGroups) (hfs : filterSize ≤ 65536)
    (hcore1 : checksCore images hidActs t1 numModulesX filterSize paddingStart
      moduleStride numImgColors numGroups (moduleSumDefault numModulesX moduleSum0))
    (hcore2 : checksCore images hidActs t2 numModulesX filterSize paddingStart
      moduleStride numImgColors numGroups (moduleSumDefault numModulesX moduleSum0))
    (hc : c < numImgColors / numGroups) (hp : p < filterSize * filterSize)
    (hf : f < hidActs.rows / (numModulesX * numModulesX)) :
    (∃ r1 r2,
      convWeightActs images hidActs t1 numModulesX filterSize paddingStart
          moduleStride numImgColors numGroups 0 1 moduleSum0 = some r1
      ∧ convWeightActs images hidActs t2 numModulesX filterSize paddingStart
          moduleStride numImgColors numGroups 0 1 moduleSum0 = some r2
      ∧ r1.rows = numModulesX * numModulesX / moduleSumDefault numModulesX moduleSum0
          * (numImgColors / numGroups) * (filterSize * filterSize)
      ∧ r1.cols = hidActs.rows / (numModulesX * numModulesX)
      ∧ r1.out sh0 om c p f = r2.out sh1 om c p f)
    ∧ ∀ sT sO : ℚ, ¬ (sT = 0 ∧ sO = 1) →
        (¬ (t1.rows = numModulesX * numModulesX
                / moduleSumDefault numModulesX moduleSum0
                * (numImgColors / numGroups) * (filterSize * filterSize)
            ∧ t1.cols = hidActs.rows / (numModulesX * numModulesX)) →
          convWeightActs images hidActs t1 numModulesX filterSize paddingStart
            moduleStride numImgColors numGroups sT sO moduleSum0 = none)
        ∧ ((t1.rows = numModulesX * numModulesX
                / moduleSumDefault numModulesX moduleSum0
                * (numImgColors / numGroups) * (filterSize * filterSize)
            ∧ t1.cols = hidActs.rows / (numModulesX * numModulesX)) →
          ∃ r, convWeightActs images hidActs t1 numModulesX filterSize paddingStart
              moduleStride numImgColors numGroups sT sO moduleSum0 = some r
            ∧ r.out sh0 om c p f
                = sT * t1.data ((tgtIdx (mkParams images hidActs numModulesX
                      filterSize paddingStart moduleStride numImgColors numGroups
                      (moduleSumDefault numModulesX moduleSum0)) om c p f : ℕ) : ℤ)
                  + sO * refGrad images.data hidActs.data
                      (mkParams images hidActs numModulesX filterSize paddingStart
                        moduleStride numImgColors numGroups
                        (moduleSumDefault numModulesX moduleSum0)) om c p f) := by
  constructor
  · have hch1 : convWeightActsChecks images hidActs t1 numModulesX filterSize
        paddingStart moduleStride numImgColors numGroups 0 1
        (moduleSumDefault numModulesX moduleSum0) := ⟨hcore1, Or.inl ⟨rfl, rfl⟩⟩
    have hch2 : convWeightActsChecks images hidActs t2 numModulesX filterSize
        paddingStart moduleStride numImgColors numGroups 0 1
        (moduleSumDefault numModulesX moduleSum0) := ⟨hcore2, Or.inl ⟨rfl, rfl⟩⟩
    have e1 := convWeightActs_some images hidActs t1 numModulesX filterSize
      paddingStart moduleStride numImgColors numGroups 0 1 moduleSum0 hch1
    have e2 := convWeightActs_some images hidActs t2 numModulesX filterSize
      paddingStart moduleStride numImgColors numGroups 0 1 moduleSum0 hch2
    refine ⟨_, _, e1, e2, rfl, rfl, ?_⟩
    have g1 := convWeightActs_out_eq images hidActs t1 numModulesX filterSize
      paddingStart moduleStride numImgColors numGroups 0 1 moduleSum0 _ sh0
      om c p f hng hfs e1 hc hp hf
    have g2 := convWeightActs_out_eq images hidActs t2 numModulesX filterSize
      paddingStart moduleStride numImgColors numGroups 0 1 moduleSum0 _ sh1
      om c p f hng hfs e2 hc hp hf
    rw [g1, g2]
    simp
  · intro sT sO hsc
    constructor
    · intro hshape
      rw [convWeightActs, if_neg]
      intro hch
      rcases hch.2 with h0 | hsh
      · exact hsc h0
      · exact hshape hsh
    · intro hshape
      have hch : convWeightActsChecks images hidActs t1 numModulesX filterSize
          paddingStart moduleStride numImgColors numGroups sT sO
          (moduleSumDefault numModulesX moduleSum0) := ⟨hcore1, Or.inr hshape⟩
      have e := convWeightActs_some images hidActs t1 numModulesX filterSize
        paddingStart moduleStride numImgColors numGroups sT sO moduleSum0 hch
      exact ⟨_, e, convWeightActs_out_eq images hidActs t1 numModulesX filterSize
        paddingStart moduleStride numImgColors numGroups sT sO moduleSum0 _ sh0
        om c p f hng hfs e hc hp hf⟩

/-- C3 at the demo geometry: resize-mode calls succeed on targets of any
shape and ignore their contents; a blend-mode call on a mis-shaped target
aborts, and on the right shape blends with the prior entry. -/
theorem claim_C3_witness :
    (∃ r1 r2,
      convWeightActs demoImages demoHidActs demoTargets 2 1 0 1 1 1 0 1 0 = some r1
      ∧ convWeightActs demoImages demoHidActs ⟨5, 7, 7, false, true, fun _ => 3⟩
          2 1 0 1 1 1 0 1 0 = some r2
      ∧ r1.rows = 2 * 2 / moduleSumDefault 2 0 * (1 / 1) * (1 * 1)
      ∧ r1.cols = demoHidActs.rows / (2 * 2)
      ∧ r1.out (fun _ _ => 0) 0 0 0 0 = r2.out (fun _ _ => 5) 0 0 0 0)
    ∧ ∀ sT sO : ℚ, ¬ (sT = 0 ∧ sO = 1) →
        (¬ (demoTargets.rows = 2 * 2 / moduleSumDefault 2 0 * (1 / 1) * (1 * 1)
            ∧ demoTargets.cols = demoHidActs.rows / (2 * 2)) →
          convWeightActs demoImages demoHidActs demoTargets 2 1 0 1 1 1 sT sO 0
            = none)
        ∧ ((demoTargets.rows = 2 * 2 / moduleSumDefault 2 0 * (1 / 1) * (1 * 1)
            ∧ demoTargets.cols = demoHidActs.rows / (2 * 2)) →
          ∃ r, convWeightActs demoImages demoHidActs demoTargets 2 1 0 1 1 1 sT sO 0
              = some r
            ∧ r.out (fun _ _ => 0) 0 0 0 0
                = sT * demoTargets.data ((tgtIdx (mkParams demoImages demoHidActs
                      2 1 0 1 1 1 (moduleSumDefault 2 0)) 0 0 0 0 : ℕ) : ℤ)
                  + sO * refGrad demoImages.data demoHidActs.data
                      (mkParams demoImages demoHidActs 2 1 0 1 1 1
                        (moduleSumDefault 2 0)) 0 0 0 0) :=
  claim_C3 demoImages demoHidActs demoTargets ⟨5, 7, 7, false, true, fun _ => 3⟩
    2 1 0 1 1 1 0 (fun _ _ => 0) (fun _ _ => 5) 0 0 0 0
    (by decide) (by decide) (by decide) (by decide) (by decide) (by decide)
    (by decide)

/-- C4: a mapped image pixel outside the image extent is read as zero; a
filter pixel that maps outside the image for every folded module contributes
exactly zero to the reference gradient at its position, for every filter and
all images; and both many-colour kernels write a target entry exactly when
the filter-pixel index is strictly below `filterPixels`, every written entry
being a genuine in-extent target offset. -/
theorem claim_C4 :
    (∀ (images : Buf) (P : Params) (color : ℕ) (pxY pxX : ℤ) (cse : ℕ),
      ¬ (0 ≤ pxY ∧ pxY < (P.imgSize : ℤ) ∧ 0 ≤ pxX ∧ pxX < (P.imgSize : ℤ)) →
      boundedImgAt images P color pxY pxX cse = 0)
    ∧ (∀ (images hidActs : Buf) (P : Params) (om c p f : ℕ),
      (∀ mi < P.modulesPerBlock,
        ¬ (0 ≤ imgLoadModPosY P (om * P.modulesPerBlock + mi)
              + ((p / P.filterSize : ℕ) : ℤ)
          ∧ imgLoadModPosY P (om * P.modulesPerBlock + mi)
              + ((p / P.filterSize : ℕ) : ℤ) < (P.imgSize : ℤ)
          ∧ 0 ≤ imgLoadModPosX P (om * P.modulesPerBlock + mi)
              + ((p % P.filterSize : ℕ) : ℤ)
          ∧ imgLoadModPosX P (om * P.modulesPerBlock + mi)
              + ((p % P.filterSize : ℕ) : ℤ) < (P.imgSize : ℤ))) →
      refGrad images hidActs P om c p f = 0)
    ∧ (∀ (K : MCTmpl) (P : Params) (bx by2 tx ty c pReg : ℕ),
      MC.writeIndex? K P bx by2 tx ty c pReg = none ↔
        filterPixels P ≤ MC.blockPixelOffset K P by2 + pReg * K.B_Y + ty)
    ∧ (∀ (K : MCTmpl) (P : Params) (bx by2 tx ty c pReg idx : ℕ),
      MC.writeIndex? K P bx by2 tx ty c pReg = some idx →
      ∃ om col pix filt, pix < filterPixels P ∧ idx = tgtIdx P om col pix filt)
    ∧ (∀ (K : MFTmpl) (P : Params) (bx by2 tx ty c f : ℕ),
      MF.writeIndex? K P bx by2 tx ty c f = none ↔
        filterPixels P ≤ MF.blockPixelOffset K P by2 + ty)
    ∧ (∀ (K : MFTmpl) (P : Params) (bx by2 tx ty c f idx : ℕ),
      MF.writeIndex? K P bx by2 tx ty c f = some idx →
      ∃ om col pix filt, pix < filterPixels P ∧ idx = tgtIdx P om col pix filt) := by
  refine ⟨?_, ?_, ?_, ?_, ?_, ?_⟩
  · intro images P color pxY pxX cse h
    unfold boundedImgAt
    rw [if_neg h]
  · intro images hidActs P om c p f hout
    unfold refGrad
    apply Finset.sum_eq_zero
    intro mi hmi
    apply Finset.sum_eq_zero
    intro img _
    rw [Finset.mem_range] at hmi
    unfold boundedImgAt
    rw [if_neg (hout mi hmi), zero_mul]
  · intro K P bx by2 tx ty c pReg
    unfold MC.writeIndex?
    constructor
    · intro h
      by_contra hlt
      rw [if_pos (by omega)] at h
      exact Option.noConfusion h
    · intro h
      rw [if_neg (by omega)]
  · intro K P bx by2 tx ty c pReg idx h
    unfold MC.writeIndex? at h
    by_cases hg : MC.blockPixelOffset K P by2 + pReg * K.B_Y + ty < filterPixels P
    · rw [if_pos hg] at h
      simp only [Option.some.injEq] at h
      refine ⟨MC.outputModuleIdx K P bx, MC.blockColorIdx K P by2 + c,
        MC.blockPixelOffset K P by2 + pReg * K.B_Y + ty,
        MC.blockFilterIdx K P bx + tx, hg, ?_⟩
      rw [← h]
      unfold MC.targetIdx tgtIdx
      ring
    · rw [if_neg hg] at h
      exact Option.noConfusion h
  · intro K P bx by2 tx ty c f
    unfold MF.writeIndex?
    constructor
    · intro h
      by_contra hlt
      rw [if_pos (by omega)] at h
      exact Option.noConfusion h
    · intro h
      rw [if_neg (by omega)]
  · intro K P bx by2 tx ty c f idx h
    unfold MF.writeIndex? at h
    by_cases hg : MF.blockPixelOffset K P by2 + ty < filterPixels P
    · rw [if_pos hg] at h
      simp only [Option.some.injEq] at h
      refine ⟨MF.outputModuleIdx K P bx, MF.filterColorIdx K P by2 + c,
        MF.blockPixelOffset K P by2 + ty,
        MF.blockFilterIdx K P bx + tx + f * K.B_X, hg, ?_⟩
      rw [← h]
      unfold MF.targetIdx tgtIdx
      ring
    · rw [if_neg hg] at h
      exact Option.noConfusion h

/-- C5: a resize call (`0,1`) followed by an accumulate call (`1,1`) on the
produced target equals a single call with `scaleTargets = 0, scaleOutput =
2` on a zeroed target — linearity of the scale/blend rule. -/
theorem claim_C5 (images hidActs t0 : Mat) (numModulesX filterSize : ℕ)
    (paddingStart : ℤ) (moduleStride numImgColors numGroups moduleSum0 : ℕ)
    (sh0 sh1 sh2 : ℕ → ℕ → ℚ) (om c p f : ℕ)
    (hng : 0 < numGroups) (hfs : filterSize ≤ 65536)
    (hcore : checksCore images hidActs t0 numModulesX filterSize paddingStart
      moduleStride numImgColors numGroups (moduleSumDefault numModulesX moduleSum0))
    (hc : c < numImgColors / numGroups) (hp : p < filterSize * filterSize)
    (hf : f < hidActs.rows / (numModulesX * numModulesX)) :
    ∃ r1, convWeightActs images hidActs t0 numModulesX filterSize paddingStart
        moduleStride numImgColors numGroups 0 1 moduleSum0 = some r1
      ∧ ∃ r2 r3,
        convWeightActs images hidActs
            ⟨numModulesX * numModulesX / moduleSumDefault numModulesX moduleSum0
                * (numImgColors / numGroups) * (filterSize * filterSize),
              hidActs.rows / (numModulesX * numModulesX),
              hidActs.rows / (numModulesX * numModulesX), false, true,
              linearizeOut (numImgColors / numGroups) (filterSize * filterSize)
                (hidActs.rows / (numModulesX * numModulesX)) (r1.out sh0)⟩
            numModulesX filterSize paddingStart moduleStride numImgColors
            numGroups 1 1 moduleSum0 = some r2
        ∧ convWeightActs images hidActs
            ⟨numModulesX * numModulesX / moduleSumDefault numModulesX moduleSum0
                * (numImgColors / numGroups) * (filterSize * filterSize),
              hidActs.rows / (numModulesX * numModulesX),
              hidActs.rows / (numModulesX * numModulesX), false, true, fun _ => 0⟩
            numModulesX filterSize paddingStart moduleStride numImgColors
            numGroups 0 2 moduleSum0 = some r3
        ∧ r2.out sh1 om c p f = r3.out sh2 om c p f := by
  have hch1 : convWeightActsChecks images hidActs t0 numModulesX filterSize
      paddingStart moduleStride numImgColors numGroups 0 1
      (moduleSumDefault numModulesX moduleSum0) := ⟨hcore, Or.inl ⟨rfl, rfl⟩⟩
  have e1 := convWeightActs_some images hidActs t0 numModulesX filterSize
    paddingStart moduleStride numImgColors numGroups 0 1 moduleSum0 hch1
  refine ⟨_, e1, ?_⟩
  have hcore2 := checksCore_retarget images hidActs t0
    ⟨numModulesX * numModulesX / moduleSumDefault numModulesX moduleSum0
        * (numImgColors / numGroups) * (filterSize * filterSize),
      hidActs.rows / (numModulesX * numModulesX),
      hidActs.rows / (numModulesX * numModulesX), false, true,
      linearizeOut (numImgColors / numGroups) (filterSize * filterSize)
        (hidActs.rows / (numModulesX * numModulesX))
        ((launch images hidActs t0 numModulesX filterSize paddingStart
          moduleStride numImgColors numGroups 0 1 moduleSum0).out sh0)⟩
    numModulesX filterSize paddingStart moduleStride numImgColors numGroups
    (moduleSumDefault numModulesX moduleSum0) hcore rfl rfl
  have hch2 : convWeightActsChecks images hidActs
      ⟨numModulesX * numModulesX / moduleSumDefault numModulesX moduleSum0
          * (numImgColors / numGroups) * (filterSize * filterSize),
        hidActs.rows / (numModulesX * numModulesX),
        hidActs.rows / (numModulesX * numModulesX), false, true,
        linearizeOut (numImgColors / numGroups) (filterSize * filterSize)
          (hidActs.rows / (numModulesX * numModulesX))
          ((launch images hidActs t0 numModulesX filterSize paddingStart
            moduleStride numImgColors numGroups 0 1 moduleSum0).out sh0)⟩
      numModulesX filterSize paddingStart moduleStride numImgColors numGroups
      1 1 (moduleSumDefault numModulesX moduleSum0) := ⟨hcore2, Or.inr ⟨rfl, rfl⟩⟩
  have hcore3 := checksCore_retarget images hidActs t0
    ⟨numModulesX * numModulesX / moduleSumDefault numModulesX moduleSum0
        * (numImgColors / numGroups) * (filterSize * filterSize),
      hidActs.rows / (numModulesX * numModulesX),
      hidActs.rows / (numModulesX * numModulesX), false, true, fun _ => 0⟩
    numModulesX filterSize paddingStart moduleStride numImgColors numGroups
    (moduleSumDefault numModulesX moduleSum0) hcore rfl rfl
  have hch3 : convWeightActsChecks images hidActs
      ⟨numModulesX * numModulesX / moduleSumDefault numModulesX moduleSum0
          * (numImgColors / numGroups) * (filterSize * filterSize),
        hidActs.rows / (numModulesX * numModulesX),
        hidActs.rows / (numModulesX * numModulesX), false, true, fun _ => 0⟩
      numModulesX filterSize paddingStart moduleStride numImgColors numGroups
      0 2 (moduleSumDefault numModulesX moduleSum0) := ⟨hcore3, Or.inr ⟨rfl, rfl⟩⟩
  have e2 := convWeightActs_some images hidActs
    ⟨numModulesX * numModulesX / moduleSumDefault numModulesX moduleSum0
        * (numImgColors / numGroups) * (filterSize * filterSize),
      hidActs.rows / (numModulesX * numModulesX),
      hidActs.rows / (numModulesX * numModulesX), false, true,
      linearizeOut (numImgColors / numGroups) (filterSize * filterSize)
        (hidActs.rows / (numModulesX * numModulesX))
        ((launch images hidActs t0 numModulesX filterSize paddingStart
          moduleStride numImgColors numGroups 0 1 moduleSum0).out sh0)⟩
    numModulesX filterSize paddingStart moduleStride numImgColors numGroups
    1 1 moduleSum0 hch2
  have e3 := convWeightActs_some images hidActs
    ⟨numModulesX * numModulesX / moduleSumDefault numModulesX moduleSum0
        * (numImgColors / numGroups) * (filterSize * filterSize),
      hidActs.rows / (numModulesX * numModulesX),
      hidActs.rows / (numModulesX * numModulesX), false, true, fun _ => 0⟩
    numModulesX filterSize paddingStart moduleStride numImgColors numGroups
    0 2 moduleSum0 hch3
  refine ⟨_, _, e2, e3, ?_⟩
  have g1 := convWeightActs_out_eq images hidActs t0 numModulesX filterSize
    paddingStart moduleStride numImgColors numGroups 0 1 moduleSum0 _ sh0
    om c p f hng hfs e1 hc hp hf
  have g2 := convWeightActs_out_eq images hidActs
    ⟨numModulesX * numModulesX / moduleSumDefault numModulesX moduleSum0
        * (numImgColors / numGroups) * (filterSize * filterSize),
      hidActs.rows / (numModulesX * numModulesX),
      hidActs.rows / (numModulesX * numModulesX), false, true,
      linearizeOut (numImgColors / numGroups) (filterSize * filterSize)
        (hidActs.rows / (numModulesX * numModulesX))
        ((launch images hidActs t0 numModulesX filterSize paddingStart
          moduleStride numImgColors numGroups 0 1 moduleSum0).out sh0)⟩
    numModulesX filterSize paddingStart moduleStride numImgColors numGroups
    1 1 moduleSum0 _ sh1 om c p f hng hfs e2 hc hp hf
  have g3 := convWeightActs_out_eq images hidActs
    ⟨numModulesX * numModulesX / moduleSumDefault numModulesX moduleSum0
        * (numImgColors / numGroups) * (filterSize * filterSize),
      hidActs.rows / (numModulesX * numModulesX),
      hidActs.rows / (numModulesX * numModulesX), false, true, fun _ => 0⟩
    numModulesX filterSize paddingStart moduleStride numImgColors numGroups
    0 2 moduleSum0 _ sh2 om c p f hng hfs e3 hc hp hf
  have hlin := linearize_tgtIdx (numImgColors / numGroups)
    (filterSize * filterSize) (hidActs.rows / (numModulesX * numModulesX))
    ((launch images hidActs t0 numModulesX filterSize paddingStart moduleStride
      numImgColors numGroups 0 1 moduleSum0).out sh0)
    (mkParams images hidActs numModulesX filterSize paddingStart moduleStride
      numImgColors numGroups (moduleSumDefault numModulesX moduleSum0))
    om c p f rfl rfl rfl hc hp hf
  calc (launch images hidActs
        ⟨numModulesX * numModulesX / moduleSumDefault numModulesX moduleSum0
            * (numImgColors / numGroups) * (filterSize * filterSize),
          hidActs.rows / (numModulesX * numModulesX),
          hidActs.rows / (numModulesX * numModulesX), false, true,
          linearizeOut (numImgColors / numGroups) (filterSize * filterSize)
            (hidActs.rows / (numModulesX * numModulesX))
            ((launch images hidActs t0 numModulesX filterSize paddingStart
              moduleStride numImgColors numGroups 0 1 moduleSum0).out sh0)⟩
        numModulesX filterSize paddingStart moduleStride numImgColors numGroups
        1 1 moduleSum0).out sh1 om c p f
      = 1 * linearizeOut (numImgColors / numGroups) (filterSize * filterSize)
            (hidActs.rows / (numModulesX * numModulesX))
            ((launch images hidActs t0 numModulesX filterSize paddingStart
              moduleStride numImgColors numGroups 0 1 moduleSum0).out sh0)
            ((tgtIdx (mkParams images hidActs numModulesX filterSize paddingStart
              moduleStride numImgColors numGroups
              (moduleSumDefault numModulesX moduleSum0)) om c p f : ℕ) : ℤ)
          + 1 * refGrad images.data hidActs.data
              (mkParams images hidActs numModulesX filterSize paddingStart
                moduleStride numImgColors numGroups
                (moduleSumDefault numModulesX moduleSum0)) om c p f := g2
    _ = 1 * (launch images hidActs t0 numModulesX filterSize paddingStart
            moduleStride numImgColors numGroups 0 1 moduleSum0).out sh0 om c p f
          + 1 * refGrad images.data hidActs.data
              (mkParams images hidActs numModulesX filterSize paddingStart
                moduleStride numImgColors numGroups
                (moduleSumDefault numModulesX moduleSum0)) om c p f := by
        rw [hlin]
    _ = 1 * (0 * t0.data ((tgtIdx (mkParams images hidActs numModulesX filterSize
            paddingStart moduleStride numImgColors numGroups
            (moduleSumDefault numModulesX moduleSum0)) om c p f : ℕ) : ℤ)
          + 1 * refGrad images.data hidActs.data
              (mkParams images hidActs numModulesX filterSize paddingStart
                moduleStride numImgColors numGroups
                (moduleSumDefault numModulesX moduleSum0)) om c p f)
          + 1 * refGrad images.data hidActs.data
              (mkParams images hidActs numModulesX filterSize paddingStart
                moduleStride numImgColors numGroups
                (moduleSumDefault numModulesX moduleSum0)) om c p f := by
        rw [g1]
    _ = 0 * (0 : ℚ) + 2 * refGrad images.data hidActs.data
          (mkParams images hidActs numModulesX filterSize paddingStart
            moduleStride numImgColors numGroups
            (moduleSumDefault numModulesX moduleSum0)) om c p f := by ring
    _ = (launch images hidActs
          ⟨numModulesX * numModulesX / moduleSumDefault numModulesX moduleSum0
              * (numImgColors / numGroups) * (filterSize * filterSize),
            hidActs.rows / (numModulesX * numModulesX),
            hidActs.rows / (numModulesX * numModulesX), false, true, fun _ => 0⟩
          numModulesX filterSize paddingStart moduleStride numImgColors numGroups
          0 2 moduleSum0).out sh2 om c p f := g3.symm

/-- C5 at the demo geometry: resize-then-accumulate equals one doubled
call. -/
theorem claim_C5_witness :
    ∃ r1, convWeightActs demoImages demoHidActs demoTargets 2 1 0 1 1 1 0 1 0
        = some r1
      ∧ ∃ r2 r3,
        convWeightActs demoImages demoHidActs
            ⟨2 * 2 / moduleSumDefault 2 0 * (1 / 1) * (1 * 1),
              demoHidActs.rows / (2 * 2), demoHidActs.rows / (2 * 2), false, true,
              linearizeOut (1 / 1) (1 * 1) (demoHidActs.rows / (2 * 2))
                (r1.out (fun _ _ => 0))⟩
            2 1 0 1 1 1 1 1 0 = some r2
        ∧ convWeightActs demoImages demoHidActs
            ⟨2 * 2 / moduleSumDefault 2 0 * (1 / 1) * (1 * 1),
              demoHidActs.rows / (2 * 2), demoHidActs.rows / (2 * 2), false, true,
              fun _ => 0⟩
            2 1 0 1 1 1 0 2 0 = some r3
        ∧ r2.out (fun _ _ => 0) 0 0 0 0 = r3.out (fun _ _ => 0) 0 0 0 0 :=
  claim_C5 demoImages demoHidActs demoTargets 2 1 0 1 1 1 0 (fun _ _ => 0)
    (fun _ _ => 0) (fun _ _ => 0) 0 0 0 0 (by decide) (by decide) (by decide)
    (by decide) (by decide) (by decide)

/-- Folding invariance of the reference reduction: summing `refGrad` over the
`N/moduleSum` row blocks of a folded geometry equals summing it over all `N`
modules of the unfolded geometry, for any two parameter blocks differing
only in `modulesPerBlock`. -/
theorem refGrad_fold (images hidActs : Buf) (Pk P1 : Params) (N : ℕ)
    (hmpb1 : P1.modulesPerBlock = 1)
    (hni : Pk.numImages = P1.numImages) (hnf : Pk.numFilters = P1.numFilters)
    (hnmx : Pk.numModulesX = P1.numModulesX) (his : Pk.imgSize = P1.imgSize)
    (hfsz : Pk.filterSize = P1.filterSize) (hps : Pk.paddingStart = P1.paddingStart)
    (hstr : Pk.moduleStride = P1.moduleStride) (histr : Pk.imgStride = P1.imgStride)
    (hnic : Pk.numImgColors = P1.numImgColors) (hngr : Pk.numGroups = P1.numGroups)
    (hdvd : N % Pk.modulesPerBlock = 0) (c p f : ℕ) :
    ∑ om ∈ Finset.range (N / Pk.modulesPerBlock), refGrad images hidActs Pk om c p f
      = ∑ m ∈ Finset.range N, refGrad images hidActs P1 m c p f := by
  obtain ⟨ni, nf, nmx, isz, fsz, ps, ms, istr, nic, mpb, ng⟩ := Pk
  obtain ⟨ni1, nf1, nmx1, isz1, fsz1, ps1, ms1, istr1, nic1, mpb1, ng1⟩ := P1
  dsimp only at hmpb1 hni hnf hnmx his hfsz hps hstr histr hnic hngr hdvd ⊢
  subst hmpb1 hni hnf hnmx his hfsz hps hstr histr hnic hngr
  calc ∑ om ∈ Finset.range (N / mpb),
        refGrad images hidActs ⟨ni, nf, nmx, isz, fsz, ps, ms, istr, nic, mpb, ng⟩
          om c p f
      = ∑ om ∈ Finset.range (N / mpb), ∑ mi ∈ Finset.range mpb,
          moduleTerm images hidActs
            ⟨ni, nf, nmx, isz, fsz, ps, ms, istr, nic, mpb, ng⟩ (om * mpb + mi)
            c p f := rfl
    _ = ∑ j ∈ Finset.range (N / mpb * mpb),
          moduleTerm images hidActs
            ⟨ni, nf, nmx, isz, fsz, ps, ms, istr, nic, mpb, ng⟩ j c p f :=
        (sum_range_mul_split (N / mpb) mpb
          (fun j => moduleTerm images hidActs
            ⟨ni, nf, nmx, isz, fsz, ps, ms, istr, nic, mpb, ng⟩ j c p f)).symm
    _ = ∑ j ∈ Finset.range N,
          moduleTerm images hidActs
            ⟨ni, nf, nmx, isz, fsz, ps, ms, istr, nic, mpb, ng⟩ j c p f := by
        rw [Nat.div_mul_cancel (Nat.dvd_of_mod_eq_zero hdvd)]
    _ = ∑ m ∈ Finset.range N,
          refGrad images hidActs ⟨ni, nf, nmx, isz, fsz, ps, ms, istr, nic, 1, ng⟩
            m c p f := by
        refine Finset.sum_congr rfl fun m _ => ?_
        have h1 : refGrad images hidActs
            ⟨ni, nf, nmx, isz, fsz, ps, ms, istr, nic, 1, ng⟩ m c p f
            = ∑ mi ∈ Finset.range 1,
                moduleTerm images hidActs
                  ⟨ni, nf, nmx, isz, fsz, ps, ms, istr, nic, 1, ng⟩ (m * 1 + mi)
                  c p f := rfl
        rw [h1, Finset.sum_range_one, mul_one, add_zero]
        rfl

/-- C6: for `k` dividing the module count, folding with `moduleSum = k` and
summing the `numModules/k` row blocks at a fixed colour, filter pixel and
filter equals computing with `moduleSum = 1` (no folding) and summing all
per-module rows; and `moduleSum = 0` behaves exactly as `moduleSum =
numModules`. -/
theorem claim_C6 (images hidActs t0 : Mat) (numModulesX filterSize : ℕ)
    (paddingStart : ℤ) (moduleStride numImgColors numGroups k : ℕ)
    (sh0 sh1 : ℕ → ℕ → ℚ) (c p f : ℕ)
    (hnmx : 0 < numModulesX) (hk : 0 < k)
    (hng : 0 < numGroups) (hfs : filterSize ≤ 65536)
    (hcore : checksCore images hidActs t0 numModulesX filterSize paddingStart
      moduleStride numImgColors numGroups k)
    (hc : c < numImgColors / numGroups) (hp : p < filterSize * filterSize)
    (hf : f < hidActs.rows / (numModulesX * numModulesX)) :
    (∃ rk r1,
      convWeightActs images hidActs t0 numModulesX filterSize paddingStart
          moduleStride numImgColors numGroups 0 1 k = some rk
      ∧ convWeightActs images hidActs t0 numModulesX filterSize paddingStart
          moduleStride numImgColors numGroups 0 1 1 = some r1
      ∧ ∑ om ∈ Finset.range (numModulesX * numModulesX / k), rk.out sh0 om c p f
          = ∑ m ∈ Finset.range (numModulesX * numModulesX), r1.out sh1 m c p f)
    ∧ convWeightActs images hidActs t0 numModulesX filterSize paddingStart
          moduleStride numImgColors numGroups 0 1 0
      = convWeightActs images hidActs t0 numModulesX filterSize paddingStart
          moduleStride numImgColors numGroups 0 1 (numModulesX * numModulesX) := by
  have hms_k : moduleSumDefault numModulesX k = k := by
    unfold moduleSumDefault
    rw [if_neg (by omega)]
  have hms_1 : moduleSumDefault numModulesX 1 = 1 := by
    unfold moduleSumDefault
    rw [if_neg (by omega)]
  have a7 : numModulesX * numModulesX % k = 0 := by
    obtain ⟨_, _, _, _, _, _, a7, _⟩ := hcore
    exact a7
  have hcore_k : checksCore images hidActs t0 numModulesX filterSize paddingStart
      moduleStride numImgColors numGroups (moduleSumDefault numModulesX k) := by
    rw [hms_k]
    exact hcore
  have hcore_1 : checksCore images hidActs t0 numModulesX filterSize paddingStart
      moduleStride numImgColors numGroups (moduleSumDefault numModulesX 1) := by
    rw [hms_1]
    exact checksCore_moduleSum images hidActs t0 numModulesX filterSize paddingStart
      moduleStride numImgColors numGroups k 1 hcore (Nat.mod_one _)
  constructor
  · have e_k := convWeightActs_some images hidActs t0 numModulesX filterSize
      paddingStart moduleStride numImgColors numGroups 0 1 k
      ⟨hcore_k, Or.inl ⟨rfl, rfl⟩⟩
    have e_1 := convWeightActs_some images hidActs t0 numModulesX filterSize
      paddingStart moduleStride numImgColors numGroups 0 1 1
      ⟨hcore_1, Or.inl ⟨rfl, rfl⟩⟩
    refine ⟨_, _, e_k, e_1, ?_⟩
    have gk : ∀ om, (launch images hidActs t0 numModulesX filterSize paddingStart
        moduleStride numImgColors numGroups 0 1 k).out sh0 om c p f
        = refGrad images.data hidActs.data
            (mkParams images hidActs numModulesX filterSize paddingStart
              moduleStride numImgColors numGroups
              (moduleSumDefault numModulesX k)) om c p f := by
      intro om
      have g := convWeightActs_out_eq images hidActs t0 numModulesX filterSize
        paddingStart moduleStride numImgColors numGroups 0 1 k _ sh0 om c p f
        hng hfs e_k hc hp hf
      rw [g]
      ring
    have g1 : ∀ m, (launch images hidActs t0 numModulesX filterSize paddingStart
        moduleStride numImgColors numGroups 0 1 1).out sh1 m c p f
        = refGrad images.data hidActs.data
            (mkParams images hidActs numModulesX filterSize paddingStart
              moduleStride numImgColors numGroups
              (moduleSumDefault numModulesX 1)) m c p f := by
      intro m
      have g := convWeightActs_out_eq images hidActs t0 numModulesX filterSize
        paddingStart moduleStride numImgColors numGroups 0 1 1 _ sh1 m c p f
        hng hfs e_1 hc hp hf
      rw [g]
      ring
    calc ∑ om ∈ Finset.range (numModulesX * numModulesX / k),
          (launch images hidActs t0 numModulesX filterSize paddingStart
            moduleStride numImgColors numGroups 0 1 k).out sh0 om c p f
        = ∑ om ∈ Finset.range (numModulesX * numModulesX / k),
            refGrad images.data hidActs.data
              (mkParams images hidActs numModulesX filterSize paddingStart
                moduleStride numImgColors numGroups
                (moduleSumDefault numModulesX k)) om c p f :=
          Finset.sum_congr rfl fun om _ => gk om
      _ = ∑ om ∈ Finset.range (numModulesX * numModulesX
              / moduleSumDefault numModulesX k),
            refGrad images.data hidActs.data
              (mkParams images hidActs numModulesX filterSize paddingStart
                moduleStride numImgColors numGroups
                (moduleSumDefault numModulesX k)) om c p f := by
          rw [show numModulesX * numModulesX / k
              = numModulesX * numModulesX / moduleSumDefault numModulesX k by
            rw [hms_k]]
      _ = ∑ m ∈ Finset.range (numModulesX * numModulesX),
            refGrad images.data hidActs.data
              (mkParams images hidActs numModulesX filterSize paddingStart
                moduleStride numImgColors numGroups
                (moduleSumDefault numModulesX 1)) m c p f :=
          refGrad_fold images.data hidActs.data
            (mkParams images hidActs numModulesX filterSize paddingStart
              moduleStride numImgColors numGroups (moduleSumDefault numModulesX k))
            (mkParams images hidActs numModulesX filterSize paddingStart
              moduleStride numImgColors numGroups (moduleSumDefault numModulesX 1))
            (numModulesX * numModulesX) hms_1 rfl rfl rfl rfl rfl rfl rfl
            rfl rfl rfl (by rw [hms_k]; exact a7) c p f
      _ = ∑ m ∈ Finset.range (numModulesX * numModulesX),
            (launch images hidActs t0 numModulesX filterSize paddingStart
              moduleStride numImgColors numGroups 0 1 1).out sh1 m c p f :=
          Finset.sum_congr rfl fun m _ => (g1 m).symm
  · have hnm0 : numModulesX * numModulesX ≠ 0 := Nat.mul_ne_zero hnmx.ne' hnmx.ne'
    have h0 : moduleSumDefault numModulesX 0 = numModulesX * numModulesX := by
      unfold moduleSumDefault
      rw [if_pos rfl]
    have hN : moduleSumDefault numModulesX (numModulesX * numModulesX)
        = numModulesX * numModulesX := by
      unfold moduleSumDefault
      rw [if_neg hnm0]
    simp only [convWeightActs, h0, hN]

/-- C6 at the demo geometry with `k = 2`. -/
theorem claim_C6_witness :
    (∃ rk r1,
      convWeightActs demoImages demoHidActs demoTargets 2 1 0 1 1 1 0 1 2 = some rk
      ∧ convWeightActs demoImages demoHidActs demoTargets 2 1 0 1 1 1 0 1 1 = some r1
      ∧ ∑ om ∈ Finset.range (2 * 2 / 2), rk.out (fun _ _ => 0) om 0 0 0
          = ∑ m ∈ Finset.range (2 * 2), r1.out (fun _ _ => 0) m 0 0 0)
    ∧ convWeightActs demoImages demoHidActs demoTargets 2 1 0 1 1 1 0 1 0
      = convWeightActs demoImages demoHidActs demoTargets 2 1 0 1 1 1 0 1 (2 * 2) :=
  claim_C6 demoImages demoHidActs demoTargets 2 1 0 1 1 1 2 (fun _ _ => 0)
    (fun _ _ => 0) 0 0 0 (by decide) (by decide) (by decide) (by decide)
    (by decide) (by decide) (by decide) (by decide)

/-- C7 (code bug at line 612): the coverage assert tests `paddingStart +
(numModules − 1)·moduleStride + filterSize ≥ imgSize` with `numModules =
numModulesX²` instead of the per-side count `numModulesX`.  With `imgSize =
4`, `numModulesX = 2`, `moduleStride = 1`, `filterSize = 1`, `paddingStart =
0` the per-side reach is `0 + (2−1)·1 + 1 = 2 < 4` — the spec's
full-coverage invariant is violated — yet the call launches a kernel
instead of aborting. -/
theorem claim_C7 :
    ¬ ((isqrt (demoImages.rows / 1) : ℤ)
        ≤ 0 + ((2 : ℤ) - 1) * (1 : ℤ) + (1 : ℤ))
    ∧ (convWeightActs demoImages demoHidActs demoTargets 2 1 0 1 1 1 0 1 0).isSome
        = true := by
  constructor
  · decide
  · rw [convWeightActs, if_pos (by decide)]
    rfl

/-- C8 (corrected): the spec's call-time invariants alone do not make the
precondition check pass (see the counterexample, aborted because `numFilters
= 8` is not a multiple of 16).  The check does pass — and a kernel is
launched — once the implementation's additional requirements are added:
`numFilters % (16·numGroups) == 0`, the accepted colour set, the `moduleSum`
divisibility, consistent shapes, and the transposition/contiguity flags
(`numModulesX`, `numImgColors`, `numGroups` positive). -/
theorem claim_C8 (images hidActs targets : Mat) (numModulesX filterSize : ℕ)
    (paddingStart : ℤ) (moduleStride numImgColors numGroups moduleSum0 : ℕ)
    (hspec : specCallInvariants images hidActs numModulesX filterSize paddingStart
      moduleStride numImgColors numGroups)
    (hnmx : 0 < numModulesX) (hnic : 0 < numImgColors) (hng : 0 < numGroups)
    (hdiv16 : hidActs.rows / (numModulesX * numModulesX) % (16 * numGroups) = 0)
    (hcol : acceptedColors numImgColors numGroups)
    (hshape1 : images.rows = images.rows / numImgColors * numImgColors)
    (hshape2 : hidActs.cols = images.cols)
    (hshape3 : numModulesX * numModulesX
        * (hidActs.rows / (numModulesX * numModulesX)) = hidActs.rows)
    (hmsum : numModulesX * numModulesX % moduleSumDefault numModulesX moduleSum0 = 0)
    (hfl1 : images.trans = false) (hfl2 : hidActs.trans = false)
    (hfl3 : hidActs.contig = true) (hfl4 : targets.trans = false)
    (hfl5 : targets.contig = true) :
    (convWeightActs images hidActs targets numModulesX filterSize paddingStart
      moduleStride numImgColors numGroups 0 1 moduleSum0).isSome = true := by
  obtain ⟨s1, s2, s3, s4, s5, s6⟩ := hspec
  have hs : (0 : ℤ) ≤ (moduleStride : ℤ) := Int.natCast_nonneg _
  have hcore : checksCore images hidActs targets numModulesX filterSize paddingStart
      moduleStride numImgColors numGroups (moduleSumDefault numModulesX moduleSum0) := by
    refine ⟨s6, hdiv16, ?_, ?_, s1, hshape1, hmsum, hshape2, s2, ?_, s4, hshape3,
      hfl1, hfl2, hfl3, hfl4, hfl5, ?_, ?_⟩
    · by_cases hg1 : numGroups = 1
      · refine Or.inr ⟨hnic, ?_⟩
        have hcol2 := hcol
        unfold acceptedColors at hcol2
        rw [if_pos hg1] at hcol2
        rcases hcol2 with h | h | h | h
        · exact Or.inl (by omega)
        · exact Or.inl (by omega)
        · exact Or.inl (by omega)
        · exact Or.inr h
      · exact Or.inl (by omega)
    · by_cases hg1 : numGroups = 1
      · exact Or.inl hg1
      · have hcol2 := hcol
        unfold acceptedColors at hcol2
        rw [if_neg hg1] at hcol2
        exact Or.inr hcol2
    · have hle : (numModulesX : ℤ) ≤ ((numModulesX * numModulesX : ℕ) : ℤ) := by
        exact_mod_cast Nat.le_mul_of_pos_right numModulesX hnmx
      have h1 : ((numModulesX : ℤ) - 1) * (moduleStride : ℤ)
          ≤ (((numModulesX * numModulesX : ℕ) : ℤ) - 1) * (moduleStride : ℤ) :=
        mul_le_mul_of_nonneg_right (by linarith) hs
      linarith
    · by_cases hg1 : numGroups = 1
      · exact Or.inr hg1
      · have hcol2 := hcol
        unfold acceptedColors at hcol2
        rw [if_neg hg1] at hcol2
        have hdvd : numGroups ∣ numImgColors := Nat.dvd_of_mod_eq_zero s6
        have hgele : numGroups ≤ numImgColors := Nat.le_of_dvd hnic hdvd
        have hpos : 1 ≤ numImgColors / numGroups := (Nat.one_le_div_iff hng).mpr hgele
        exact Or.inl (by omega)
    · split_ifs <;> norm_num
  rw [convWeightActs, if_pos ⟨hcore, Or.inl ⟨rfl, rfl⟩⟩]
  rfl

/-- C8 at a spec-satisfying, implementation-accepted geometry. -/
theorem claim_C8_witness :
    (convWeightActs demoImages demoHidActs demoTargets 2 2 0 2 1 1 0 1 0).isSome
      = true :=
  claim_C8 demoImages demoHidActs demoTargets 2 2 0 2 1 1 0 (by decide) (by decide)
    (by decide) (by decide) (by decide) (by decide) (by decide) (by decide)
    (by decide) (by decide) (by decide) (by decide) (by decide) (by decide)
    (by decide)

/-- C8's counterexample: a call satisfying every call-time invariant the
spec's data model lists, with consistent shapes and flags (`numFilters = 8`,
one group, `imgSize = 4`, `filterSize = moduleStride = 2`), which the
implementation nevertheless rejects, because `8 % 16 ≠ 0`. -/
theorem claim_C8_counterexample :
    specCallInvariants demoImages ⟨32, 32, 32, false, true, fun _ => 0⟩ 2 2 0 2 1 1
    ∧ demoImages.rows = demoImages.rows / 1 * 1
    ∧ (⟨32, 32, 32, false, true, fun _ => 0⟩ : Mat).cols = demoImages.cols
    ∧ 2 * 2 * ((⟨32, 32, 32, false, true, fun _ => 0⟩ : Mat).rows / (2 * 2))
        = (⟨32, 32, 32, false, true, fun _ => 0⟩ : Mat).rows
    ∧ convWeightActs demoImages ⟨32, 32, 32, false, true, fun _ => 0⟩ demoTargets
        2 2 0 2 1 1 0 1 0 = none := by
  refine ⟨by decide, by decide, by decide, by decide, ?_⟩
  rw [convWeightActs, if_neg (by decide)]

/-- C9: a call whose filter count is not a multiple of `16·numGroups`, or
whose colour count lies outside the accepted set (1, 2, 3 or a multiple of 4
for one group; `numImgColors/numGroups` a multiple of 4 otherwise), aborts
before any kernel launch. -/
theorem claim_C9 (images hidActs targets : Mat) (numModulesX filterSize : ℕ)
    (paddingStart : ℤ) (moduleStride numImgColors numGroups : ℕ)
    (scaleTargets scaleOutput : ℚ) (moduleSum0 : ℕ)
    (h : ¬ hidActs.rows / (numModulesX * numModulesX) % (16 * numGroups) = 0
      ∨ ¬ acceptedColors numImgColors numGroups) :
    convWeightActs images hidActs targets numModulesX filterSize paddingStart
      moduleStride numImgColors numGroups scaleTargets scaleOutput moduleSum0
      = none := by
  rw [convWeightActs, if_neg]
  intro hch
  obtain ⟨⟨a1, a2, a3, a4, _⟩, _⟩ := hch
  rcases h with h | h
  · exact h a2
  · apply h
    unfold acceptedColors
    by_cases hg1 : numGroups = 1
    · rw [if_pos hg1]
      rcases a3 with habs | ⟨hpos, hor⟩ <;> omega
    · rw [if_neg hg1]
      rcases a4 with h1 | h4
      · exact absurd h1 hg1
      · exact h4

/-- C9 on a concrete call with five colours in one group: the spec's
divisibility invariants hold, the colour set does not, and the call
aborts. -/
theorem claim_C9_witness :
    specCallInvariants ⟨20, 32, 32, false, true, fun _ => 0⟩
        ⟨16, 32, 32, false, true, fun _ => 0⟩ 1 2 0 1 5 1
    ∧ convWeightActs ⟨20, 32, 32, false, true, fun _ => 0⟩
        ⟨16, 32, 32, false, true, fun _ => 0⟩ demoTargets 1 2 0 1 5 1 0 1 0
      = none :=
  ⟨by decide, claim_C9 ⟨20, 32, 32, false, true, fun _ => 0⟩
    ⟨16, 32, 32, false, true, fun _ => 0⟩ demoTargets 1 2 0 1 5 1 0 1 0
    (Or.inr (by decide))⟩

/-- C10: the nine-argument overload is definitionally the full call with
`scaleTargets = 0, scaleOutput = 1, moduleSum = 0`; and since `moduleSum =
0` defaults to the full module count, every successful default call resizes
the target to `numFilterColors * filterPixels` rows by `numFilters` columns
and fills it with the gradient summed over every module. -/
theorem claim_C10 (images hidActs targets : Mat) (numModulesX filterSize : ℕ)
    (paddingStart : ℤ) (moduleStride numImgColors numGroups : ℕ)
    (hnmx : 0 < numModulesX) (hng : 0 < numGroups) (hfs : filterSize ≤ 65536) :
    convWeightActsDefault images hidActs targets numModulesX filterSize paddingStart
        moduleStride numImgColors numGroups
      = convWeightActs images hidActs targets numModulesX filterSize paddingStart
          moduleStride numImgColors numGroups 0 1 0
    ∧ ∀ r, convWeightActsDefault images hidActs targets numModulesX filterSize
          paddingStart moduleStride numImgColors numGroups = some r →
        r.rows = numImgColors / numGroups * (filterSize * filterSize)
        ∧ r.cols = hidActs.rows / (numModulesX * numModulesX)
        ∧ ∀ sh0 om c p f, c < numImgColors / numGroups →
            p < filterSize * filterSize →
            f < hidActs.rows / (numModulesX * numModulesX) →
            r.out sh0 om c p f = refGrad images.data hidActs.data
              (mkParams images hidActs numModulesX filterSize paddingStart
                moduleStride numImgColors numGroups (numModulesX * numModulesX))
              om c p f := by
  have hms0 : moduleSumDefault numModulesX 0 = numModulesX * numModulesX := by
    unfold moduleSumDefault
    rw [if_pos rfl]
  refine ⟨rfl, ?_⟩
  intro r hr
  have hr2 : convWeightActs images hidActs targets numModulesX filterSize
      paddingStart moduleStride numImgColors numGroups 0 1 0 = some r := hr
  by_cases hch : convWeightActsChecks images hidActs targets numModulesX filterSize
      paddingStart moduleStride numImgColors numGroups 0 1
      (moduleSumDefault numModulesX 0)
  · have he := convWeightActs_some images hidActs targets numModulesX filterSize
      paddingStart moduleStride numImgColors numGroups 0 1 0 hch
    rw [hr2] at he
    simp only [Option.some.injEq] at he
    subst he
    refine ⟨?_, rfl, ?_⟩
    · show numModulesX * numModulesX / moduleSumDefault numModulesX 0
          * (numImgColors / numGroups) * (filterSize * filterSize)
        = numImgColors / numGroups * (filterSize * filterSize)
      rw [hms0, Nat.div_self (Nat.mul_pos hnmx hnmx), one_mul]
    · intro sh0 om c p f hc hp hf
      have g := convWeightActs_out_eq images hidActs targets numModulesX filterSize
        paddingStart moduleStride numImgColors numGroups 0 1 0 _ sh0 om c p f
        hng hfs (convWeightActs_some images hidActs targets numModulesX filterSize
          paddingStart moduleStride numImgColors numGroups 0 1 0 hch) hc hp hf
      rw [g, hms0]
      ring
  · rw [convWeightActs, if_neg hch] at hr2
    exact absurd hr2 (by simp)

/-- C10 at the demo geometry: the overload agrees with the explicit default
arguments. -/
theorem claim_C10_witness :
    convWeightActsDefault demoImages demoHidActs demoTargets 2 1 0 1 1 1
      = convWeightActs demoImages demoHidActs demoTargets 2 1 0 1 1 1 0 1 0 := by
  have h := claim_C10 demoImages demoHidActs demoTargets 2 1 0 1 1 1 (by decide)
    (by decide) (by decide)
  exact h.1

end CudaConv
